import Mathlib

/-!
Verification of the `rgo` lexer (`src/lexer/mod.rs`).

The lexer is embedded shallowly: the Rust `Lexer` struct becomes a Lean
structure, mutation becomes explicit state passing, and the two abort modes
of the Rust code (the `panic!` in token dispatch, and the implicit panics of
`char_at` / string slicing on non-UTF-8-boundary byte offsets) become an
explicit `Panic` result.  Loops are written with explicit fuel so that every
definition is structurally recursive and kernel-computable; fuel sufficiency
is proved separately.

The source string is modelled as a `List Char` (Rust guarantees valid UTF-8,
so a string is exactly a sequence of Unicode scalar values); byte offsets
are recovered through `Char.utf8Size`.
-/

/-- Modelled from the spec: the token data model of `src/lexer/token.rs`
(the file itself is not present; §3 of the design document lists the
delimiter kinds Paren, Brace, Bracket). -/
inductive DelimToken where
  | Paren
  | Brace
  | Bracket
deriving DecidableEq, Repr

/-- Modelled from the spec: the closed keyword enumeration of
`src/lexer/token.rs` (§4.5 lists the 25 keywords). -/
inductive Keyword where
  | Break
  | Case
  | Chan
  | Const
  | Continue
  | Default
  | Defer
  | Else
  | Fallthrough
  | For
  | Func
  | Go
  | Goto
  | If
  | Import
  | Interface
  | Map
  | Package
  | Range
  | Return
  | Select
  | Struct
  | Switch
  | Type
  | Var
deriving DecidableEq, Repr

/-- Modelled from the spec: literal payloads of `src/lexer/token.rs`
(§3: Integer with owned decimal-digit text, Str with owned raw body). -/
inductive Literal where
  | Integer (s : List Char)
  | Str (s : List Char)
deriving DecidableEq, Repr

/-- Modelled from the spec: the `Token` variant set of `src/lexer/token.rs`
(§3 of the design document), with the variants actually constructed by
`src/lexer/mod.rs`. -/
inductive Token where
  | OpenDelim (d : DelimToken)
  | CloseDelim (d : DelimToken)
  | Comma
  | Semicolon
  | Dot
  | Ellipsis
  | Colon
  | ColonAssign
  | Plus
  | PlusAssign
  | Increment
  | Minus
  | MinusAssign
  | Decrement
  | Star
  | StarAssign
  | Slash
  | SlashAssign
  | Lshift
  | LshiftAssign
  | Rshift
  | RshiftAssign
  | LessThan
  | LessThanOrEqual
  | ChanReceive
  | GreaterThan
  | GreaterThanOrEqual
  | Pipe
  | PipeAssign
  | PipePipe
  | And
  | AndAssign
  | AndAnd
  | BitClear
  | BitClearAssign
  | Not
  | NotEqual
  | Caret
  | CaretAssign
  | Percent
  | PercentAssign
  | Keyword (k : Keyword)
  | Ident (s : List Char)
  | Literal (l : Literal)
  | Whitespace
deriving DecidableEq, Repr

/-- The abort modes of the Rust code: `charBoundary` models the panic of
byte indexing (`char_at`, `&self.src[start..self.pos]`) at an offset that
is not a UTF-8 character boundary (or the `unwrap` of an empty iterator),
and `unexpectedChar` models `panic!("unexpected start of token")` at
line 478 of `src/lexer/mod.rs`. -/
inductive Panic where
  | charBoundary
  | unexpectedChar (c : Char)
deriving DecidableEq, Repr

/-- Result of running an embedded fragment of the lexer: a value, a Rust
panic, or fuel exhaustion (used only to make the loop embeddings total;
fuel sufficiency is proved below). -/
inductive Res (α : Type) where
  | ok (a : α)
  | panic (p : Panic)
  | fuel
deriving DecidableEq, Repr

def Res.bind {α β : Type} : Res α → (α → Res β) → Res β
  | .ok a, f => f a
  | .panic p, _ => .panic p
  | .fuel, _ => .fuel

instance : Monad Res where
  pure := Res.ok
  bind := Res.bind

/-- Number of bytes of the UTF-8 encoding of a char list; models Rust's
`str::len` for the source string. -/
def utf8Len : List Char → Nat
  | [] => 0
  | c :: rest => c.utf8Size + utf8Len rest

/-- Embeds `char_at` (src/lexer/mod.rs lines 518-520):
`s[byte..].chars().next().unwrap()`.  `none` models the panic that Rust
raises when `byte` is not a character boundary, is past the end, or the
remaining slice is empty. -/
def char_at : List Char → Nat → Option Char
  | [], _ => none
  | c :: rest, b =>
    if b = 0 then some c
    else if b < c.utf8Size then none
    else char_at rest (b - c.utf8Size)

/-- Embeds the `Lexer` struct (src/lexer/mod.rs lines 23-30): a byte
offset, the source, and the last char read. -/
structure Lexer where
  pos : Nat
  src : List Char
  current_char : Option Char
deriving DecidableEq, Repr

/-- Embeds `Lexer::new` (lines 34-43): position 0, current char is the
first char of the source, if any. -/
def Lexer.new (s : List Char) : Lexer :=
  { src := s, pos := 0, current_char := s.head? }

/-- Embeds `Lexer::bump` (lines 46-55): `self.pos += 1`, then re-read the
current char when still in bounds.  Note the Rust code advances the byte
offset by exactly one, not by the width of the consumed character; on a
multi-byte character the subsequent `char_at` call panics. -/
def Lexer.bump (l : Lexer) : Res Lexer :=
  let pos := l.pos + 1
  if pos < utf8Len l.src then
    match char_at l.src pos with
    | some ch => .ok { l with pos := pos, current_char := some ch }
    | none => .panic .charBoundary
  else
    .ok { l with pos := pos, current_char := none }

/-- Embeds `Lexer::next_char` (lines 59-67): one-character lookahead
without consuming. -/
def Lexer.next_char (l : Lexer) : Res (Option Char) :=
  let next_pos := l.pos + 1
  if next_pos < utf8Len l.src then
    match char_at l.src next_pos with
    | some ch => .ok (some ch)
    | none => .panic .charBoundary
  else
    .ok none

/-- Drop the chars occupying the first `n` bytes; `none` when `n` is not a
character boundary or exceeds the text.  Helper for embedding Rust string
slicing `&s[start..stop]`. -/
def drop_bytes : List Char → Nat → Option (List Char)
  | s, n =>
    if n = 0 then some s
    else match s with
      | [] => none
      | c :: rest =>
        if c.utf8Size ≤ n then drop_bytes rest (n - c.utf8Size) else none

/-- Take the chars occupying the first `n` bytes; `none` when `n` is not a
character boundary of the list. -/
def take_bytes : List Char → Nat → Option (List Char)
  | s, n =>
    if n = 0 then some []
    else match s with
      | [] => none
      | c :: rest =>
        if c.utf8Size ≤ n then
          match take_bytes rest (n - c.utf8Size) with
          | some l => some (c :: l)
          | none => none
        else none

/-- Embeds Rust string slicing `&s[start..stop]` by byte offsets; `none`
models the slicing panic (offset out of range, not a boundary, or
`start > stop`). -/
def str_slice (s : List Char) (start stop : Nat) : Option (List Char) :=
  if start ≤ stop then
    match drop_bytes s start with
    | some rest => take_bytes rest (stop - start)
    | none => none
  else none

/-- Lift a Rust slicing result into `Res`: a failed slice is a panic. -/
def liftSlice {α : Type} : Option α → Res α
  | some a => .ok a
  | none => .panic .charBoundary

/-- Modelled from Rust std: `char::is_whitespace` (the Unicode White_Space
property), restricted to the Basic Latin and Latin-1 blocks, which cover
every character this development evaluates concretely. -/
def rust_is_whitespace (c : Char) : Bool :=
  c = ' ' || c = '\t' || c = '\n' || c = '\r' ||
  c = '\x0b' || c = '\x0c' || c.toNat = 0x85 || c.toNat = 0xa0

/-- Modelled from Rust std: `char::is_alphabetic` (the Unicode Alphabetic
property), restricted to the Basic Latin and Latin-1 blocks (ASCII letters
plus the Latin-1 letters, which exclude × U+00D7 and ÷ U+00F7). -/
def rust_is_alphabetic (c : Char) : Bool :=
  ('a' ≤ c && c ≤ 'z') || ('A' ≤ c && c ≤ 'Z') ||
  (0xaa ≤ c.toNat && c.toNat ≤ 0xff &&
    (c.toNat = 0xaa || c.toNat = 0xb5 || c.toNat = 0xba || 0xc0 ≤ c.toNat) &&
    c.toNat ≠ 0xd7 && c.toNat ≠ 0xf7)

/-- Modelled from Rust std: `char::is_numeric` (Unicode general categories
Nd, Nl, No), restricted to the Basic Latin and Latin-1 blocks (the digits
plus ² ³ ¹ ¼ ½ ¾). -/
def rust_is_numeric (c : Char) : Bool :=
  ('0' ≤ c && c ≤ '9') ||
  c.toNat = 0xb2 || c.toNat = 0xb3 || c.toNat = 0xb9 ||
  (0xbc ≤ c.toNat && c.toNat ≤ 0xbe)

/-- Embeds Rust's `char::is_digit(10)`. -/
def rust_is_digit10 (c : Char) : Bool :=
  '0' ≤ c && c ≤ '9'

/-- Embeds `can_start_identifier` (lines 510-512). -/
def can_start_identifier (c : Char) : Bool :=
  rust_is_alphabetic c

/-- Embeds `can_continue_identifier` (lines 514-516). -/
def can_continue_identifier (c : Char) : Bool :=
  rust_is_alphabetic c || rust_is_numeric c

/-- The loop of `scan_number` (lines 81-88): bump while the current char is
a decimal digit. -/
def scan_number_loop : Nat → Lexer → Res Lexer
  | 0, _ => .fuel
  | f + 1, l =>
    match l.current_char with
    | none => .ok l
    | some c =>
      if rust_is_digit10 c then do
        let l ← l.bump
        scan_number_loop f l
      else .ok l

/-- Embeds `Lexer::scan_number` (lines 71-93): consume the maximal run of
decimal digits and return it as an Integer literal. -/
def scan_number (f : Nat) (l : Lexer) : Res (Literal × Lexer) := do
  let start := l.pos
  let l ← scan_number_loop f l
  let s ← liftSlice (str_slice l.src start l.pos)
  pure (Literal.Integer s, l)

/-- The identifier loop (lines 414-421): bump while the current char can
continue an identifier. -/
def scan_ident_loop : Nat → Lexer → Res Lexer
  | 0, _ => .fuel
  | f + 1, l =>
    match l.current_char with
    | none => .ok l
    | some c =>
      if can_continue_identifier c then do
        let l ← l.bump
        scan_ident_loop f l
      else .ok l

/-- The 25 keyword spellings of the match at lines 426-450. -/
def keywords_list : List (List Char) :=
  [("break".toList), ("case".toList), ("chan".toList), ("const".toList),
   ("continue".toList), ("default".toList), ("defer".toList), ("else".toList),
   ("fallthrough".toList), ("for".toList), ("func".toList), ("go".toList),
   ("goto".toList), ("if".toList), ("import".toList), ("interface".toList),
   ("map".toList), ("package".toList), ("range".toList), ("return".toList),
   ("select".toList), ("struct".toList), ("switch".toList), ("type".toList),
   ("var".toList)]

/-- Embeds the keyword match at lines 425-455: an exact, case-sensitive
string match against the fixed keyword set, falling back to `Ident`. -/
def keyword_lookup (s : List Char) : Token :=
  if s = ("break".toList) then Token.Keyword Keyword.Break
  else if s = ("case".toList) then Token.Keyword Keyword.Case
  else if s = ("chan".toList) then Token.Keyword Keyword.Chan
  else if s = ("const".toList) then Token.Keyword Keyword.Const
  else if s = ("continue".toList) then Token.Keyword Keyword.Continue
  else if s = ("default".toList) then Token.Keyword Keyword.Default
  else if s = ("defer".toList) then Token.Keyword Keyword.Defer
  else if s = ("else".toList) then Token.Keyword Keyword.Else
  else if s = ("fallthrough".toList) then Token.Keyword Keyword.Fallthrough
  else if s = ("for".toList) then Token.Keyword Keyword.For
  else if s = ("func".toList) then Token.Keyword Keyword.Func
  else if s = ("go".toList) then Token.Keyword Keyword.Go
  else if s = ("goto".toList) then Token.Keyword Keyword.Goto
  else if s = ("if".toList) then Token.Keyword Keyword.If
  else if s = ("import".toList) then Token.Keyword Keyword.Import
  else if s = ("interface".toList) then Token.Keyword Keyword.Interface
  else if s = ("map".toList) then Token.Keyword Keyword.Map
  else if s = ("package".toList) then Token.Keyword Keyword.Package
  else if s = ("range".toList) then Token.Keyword Keyword.Range
  else if s = ("return".toList) then Token.Keyword Keyword.Return
  else if s = ("select".toList) then Token.Keyword Keyword.Select
  else if s = ("struct".toList) then Token.Keyword Keyword.Struct
  else if s = ("switch".toList) then Token.Keyword Keyword.Switch
  else if s = ("type".toList) then Token.Keyword Keyword.Type
  else if s = ("var".toList) then Token.Keyword Keyword.Var
  else Token.Ident s

/-- The string-literal loop (lines 461-468): bump while the current char is
not a double quote.  There is no backslash handling (the `FIXME` at line
462). -/
def scan_string_loop : Nat → Lexer → Res Lexer
  | 0, _ => .fuel
  | f + 1, l =>
    match l.current_char with
    | none => .ok l
    | some c =>
      if c ≠ '"' then do
        let l ← l.bump
        scan_string_loop f l
      else .ok l

/-- The block-comment body loop (lines 129-135): bump until positioned at
`*` with `/` as lookahead, or end of input. -/
def skip_block_comment_loop : Nat → Lexer → Res Lexer
  | 0, _ => .fuel
  | f + 1, l =>
    match l.current_char with
    | none => .ok l
    | some c =>
      if c = '*' then do
        let nc ← l.next_char
        if nc = some '/' then .ok l
        else do
          let l ← l.bump
          skip_block_comment_loop f l
      else do
        let l ← l.bump
        skip_block_comment_loop f l

/-- The line-comment loop (lines 146-152): bump until a line break or end
of input, leaving the line break unconsumed. -/
def skip_line_comment_loop : Nat → Lexer → Res Lexer
  | 0, _ => .fuel
  | f + 1, l =>
    match l.current_char with
    | none => .ok l
    | some c =>
      if c = '\n' then .ok l
      else do
        let l ← l.bump
        skip_line_comment_loop f l

/-- Embeds the whitespace-and-comment loop at the top of `Lexer::next`
(lines 115-166).  The newline flag is set only by inspecting the current
char at the top of each outer iteration (line 118), so line breaks skipped
inside a block-comment body never set it.  Returns the state after the run
together with the flag. -/
def skip_trivia : Nat → Lexer → Bool → Res (Lexer × Bool)
  | 0, _, _ => .fuel
  | f + 1, l, nl =>
    match l.current_char with
    | none => .ok (l, nl)
    | some c =>
      let nl := nl || c = '\n'
      if c = '/' then do
        let nc ← l.next_char
        if nc = some '*' then do
          let l ← l.bump
          let l ← l.bump
          let l ← skip_block_comment_loop f l
          let l ← l.bump
          let l ← l.bump
          skip_trivia f l nl
        else do
          let nc2 ← l.next_char
          if nc2 = some '/' then do
            let l ← skip_line_comment_loop f l
            skip_trivia f l nl
          else
            if rust_is_whitespace c then do
              let l ← l.bump
              skip_trivia f l nl
            else .ok (l, nl)
      else
        if rust_is_whitespace c then do
          let l ← l.bump
          skip_trivia f l nl
        else .ok (l, nl)

/-- Embeds the token dispatch of `Lexer::next` (lines 180-479), given the
current char `c` (already known to be `l.current_char`).  The branches are
in source order; the Rust `match` arms on `self.current_char` are written
as equality tests, which is what rustc compiles them to; the final
catch-all is the `panic!` at line 478. -/
def scan_token (f : Nat) (c : Char) (l : Lexer) : Res (Token × Lexer) :=
  if c = '(' then do
    let l ← l.bump
    pure (Token.OpenDelim DelimToken.Paren, l)
  else if c = ')' then do
    let l ← l.bump
    pure (Token.CloseDelim DelimToken.Paren, l)
  else if c = '\x7b' then do
    let l ← l.bump
    pure (Token.OpenDelim DelimToken.Brace, l)
  else if c = '\x7d' then do
    let l ← l.bump
    pure (Token.CloseDelim DelimToken.Brace, l)
  else if c = '[' then do
    let l ← l.bump
    pure (Token.OpenDelim DelimToken.Bracket, l)
  else if c = ']' then do
    let l ← l.bump
    pure (Token.CloseDelim DelimToken.Bracket, l)
  else if c = ',' then do
    let l ← l.bump
    pure (Token.Comma, l)
  else if c = ';' then do
    let l ← l.bump
    pure (Token.Semicolon, l)
  else if c = '.' then do
    let l ← l.bump
    if l.current_char = some '.' then do
      let nc ← l.next_char
      if nc = some '.' then do
        let l ← l.bump
        let l ← l.bump
        pure (Token.Ellipsis, l)
      else pure (Token.Dot, l)
    else pure (Token.Dot, l)
  else if c = ':' then do
    let l ← l.bump
    if l.current_char = some '=' then do
      let l ← l.bump
      pure (Token.ColonAssign, l)
    else pure (Token.Colon, l)
  else if c = '+' then do
    let l ← l.bump
    if l.current_char = some '+' then do
      let l ← l.bump
      pure (Token.Increment, l)
    else if l.current_char = some '=' then do
      let l ← l.bump
      pure (Token.PlusAssign, l)
    else pure (Token.Plus, l)
  else if c = '-' then do
    let l ← l.bump
    if l.current_char = some '-' then do
      let l ← l.bump
      pure (Token.Decrement, l)
    else if l.current_char = some '=' then do
      let l ← l.bump
      pure (Token.MinusAssign, l)
    else pure (Token.Minus, l)
  else if c = '*' then do
    let l ← l.bump
    if l.current_char = some '=' then do
      let l ← l.bump
      pure (Token.StarAssign, l)
    else pure (Token.Star, l)
  else if c = '/' then do
    let l ← l.bump
    if l.current_char = some '=' then do
      let l ← l.bump
      pure (Token.SlashAssign, l)
    else pure (Token.Slash, l)
  else if c = '<' then do
    let l ← l.bump
    if l.current_char = some '<' then do
      let l ← l.bump
      if l.current_char = some '=' then do
        let l ← l.bump
        pure (Token.LshiftAssign, l)
      else pure (Token.Lshift, l)
    else if l.current_char = some '=' then do
      let l ← l.bump
      pure (Token.LessThanOrEqual, l)
    else if l.current_char = some '-' then do
      let l ← l.bump
      pure (Token.ChanReceive, l)
    else pure (Token.LessThan, l)
  else if c = '>' then do
    let l ← l.bump
    if l.current_char = some '>' then do
      let l ← l.bump
      if l.current_char = some '=' then do
        let l ← l.bump
        pure (Token.RshiftAssign, l)
      else pure (Token.Rshift, l)
    else if l.current_char = some '=' then do
      let l ← l.bump
      pure (Token.GreaterThanOrEqual, l)
    else pure (Token.GreaterThan, l)
  else if c = '|' then do
    let l ← l.bump
    if l.current_char = some '|' then do
      let l ← l.bump
      pure (Token.PipePipe, l)
    else if l.current_char = some '=' then do
      let l ← l.bump
      pure (Token.PipeAssign, l)
    else pure (Token.Pipe, l)
  else if c = '&' then do
    let l ← l.bump
    if l.current_char = some '&' then do
      let l ← l.bump
      pure (Token.AndAnd, l)
    else if l.current_char = some '=' then do
      let l ← l.bump
      pure (Token.AndAssign, l)
    else if l.current_char = some '^' then do
      let l ← l.bump
      if l.current_char = some '=' then do
        let l ← l.bump
        pure (Token.BitClearAssign, l)
      else pure (Token.BitClear, l)
    else pure (Token.And, l)
  else if c = '!' then do
    let l ← l.bump
    if l.current_char = some '=' then do
      let l ← l.bump
      pure (Token.NotEqual, l)
    else pure (Token.Not, l)
  else if c = '^' then do
    let l ← l.bump
    if l.current_char = some '=' then do
      let l ← l.bump
      pure (Token.CaretAssign, l)
    else pure (Token.Caret, l)
  else if c = '%' then do
    let l ← l.bump
    if l.current_char = some '=' then do
      let l ← l.bump
      pure (Token.PercentAssign, l)
    else pure (Token.Percent, l)
  else if rust_is_digit10 c then do
    let r ← scan_number f l
    pure (Token.Literal r.1, r.2)
  else if can_start_identifier c then do
    let start := l.pos
    let l ← scan_ident_loop f l
    let s ← liftSlice (str_slice l.src start l.pos)
    pure (keyword_lookup s, l)
  else if c = '"' then do
    let l ← l.bump
    let start := l.pos
    let l ← scan_string_loop f l
    let s ← liftSlice (str_slice l.src start l.pos)
    let l ← l.bump
    pure (Token.Literal (Literal.Str s), l)
  else .panic (.unexpectedChar c)

/-- Embeds `Lexer::next` (lines 113-482): skip trivia; if the run held a
line break, emit `Whitespace` (before the end-of-input check, line 170);
at end of input report end of stream (`none`); otherwise dispatch on the
current char. -/
def Lexer.next (f : Nat) (l : Lexer) : Res (Option Token × Lexer) := do
  let (l, contains_newline) ← skip_trivia f l false
  if contains_newline then pure (some Token.Whitespace, l)
  else
    match l.current_char with
    | none => pure (none, l)
    | some c => do
      let (tok, l) ← scan_token f c l
      pure (some tok, l)

/-- The collection loop of `tokenize` (lines 497-502): pull tokens until
end of stream, as `Iterator::collect` does. -/
def tokenize_loop : Nat → Lexer → Res (List Token)
  | 0, _ => .fuel
  | f + 1, l =>
    match Lexer.next f l with
    | .ok (none, _) => .ok []
    | .ok (some t, l) =>
      match tokenize_loop f l with
      | .ok ts => .ok (t :: ts)
      | .panic p => .panic p
      | .fuel => .fuel
    | .panic p => .panic p
    | .fuel => .fuel

/-- Embeds `tokenize` (lines 497-502): collect all tokens from a fresh
lexer.  The fuel `2 * utf8Len s + 3` is proved sufficient below: the
embedded computation never runs out of it, so the fueled recursion is
faithful to the Rust loop on every input. -/
def tokenize (s : List Char) : Res (List Token) :=
  tokenize_loop (2 * utf8Len s + 3) (Lexer.new s)

/-! ### Basic lemmas about the embedding -/

@[simp] theorem res_bind_eq {α β : Type} (x : Res α) (f : α → Res β) :
    x >>= f = Res.bind x f := rfl

@[simp] theorem res_pure_eq {α : Type} (a : α) : (pure a : Res α) = .ok a := rfl

@[simp] theorem res_bind_ok {α β : Type} (a : α) (f : α → Res β) :
    Res.bind (.ok a) f = f a := rfl

@[simp] theorem res_bind_panic {α β : Type} (p : Panic) (f : α → Res β) :
    Res.bind (.panic p) f = .panic p := rfl

@[simp] theorem res_bind_fuel {α β : Type} (f : α → Res β) :
    Res.bind (.fuel : Res α) f = .fuel := rfl

/-- The cursor invariant maintained by `Lexer::new` and `Lexer::bump`:
whenever a current char is present, the byte position is strictly inside
the source and the char is one of the source's chars. -/
def Wf (l : Lexer) : Prop :=
  (∀ c, l.current_char = some c → l.pos < utf8Len l.src) ∧
  (∀ c, l.current_char = some c → c ∈ l.src)

theorem char_at_mem : ∀ (s : List Char) (b : Nat) (c : Char),
    char_at s b = some c → c ∈ s := by
  intro s
  induction s with
  | nil => intro b c h; simp [char_at] at h
  | cons d rest ih =>
    intro b c h
    unfold char_at at h
    split_ifs at h with h1 h2
    · injection h with h
      subst h
      exact List.mem_cons_self _ _
    · exact List.mem_cons_of_mem d (ih _ c h)

theorem wf_new (s : List Char) : Wf (Lexer.new s) := by
  constructor
  · intro c hc
    cases s with
    | nil => simp [Lexer.new] at hc
    | cons d rest =>
      have := Char.utf8Size_pos d
      simp only [Lexer.new, utf8Len]
      omega
  · intro c hc
    cases s with
    | nil => simp [Lexer.new] at hc
    | cons d rest =>
      simp only [Lexer.new, List.head?] at hc
      injection hc with hc
      subst hc
      exact List.mem_cons_self _ _

/-- `bump` either panics on a mid-character byte offset, or advances the
position by exactly one byte, preserving the source and the invariant. -/
theorem bump_cases (l : Lexer) :
    l.bump = .panic .charBoundary ∨
    ∃ l₂, l.bump = .ok l₂ ∧ l₂.pos = l.pos + 1 ∧ l₂.src = l.src ∧ Wf l₂ := by
  by_cases h : l.pos + 1 < utf8Len l.src
  · rcases hca : char_at l.src (l.pos + 1) with _ | ch
    · left
      simp [Lexer.bump, h, hca]
    · right
      refine ⟨{ l with pos := l.pos + 1, current_char := some ch }, ?_, rfl, rfl, ?_, ?_⟩
      · simp [Lexer.bump, h, hca]
      · intro c hc
        simpa using h
      · intro c hc
        injection hc with hc
        subst hc
        exact char_at_mem l.src (l.pos + 1) ch hca
  · right
    refine ⟨{ l with pos := l.pos + 1, current_char := none }, ?_, rfl, rfl, ?_, ?_⟩
    · simp [Lexer.bump, h]
    · intro c hc
      simp at hc
    · intro c hc
      simp at hc

theorem scan_number_loop_ok : ∀ (f : Nat) (l l' : Lexer),
    scan_number_loop f l = .ok l' →
    l.pos ≤ l'.pos ∧ l'.src = l.src ∧ (Wf l → Wf l') ∧
    (∀ c, l'.current_char = some c → rust_is_digit10 c = false) := by
  intro f
  induction f with
  | zero => intro l l' h; simp [scan_number_loop] at h
  | succ f ih =>
    intro l l' h
    rcases hcur : l.current_char with _ | c
    · simp only [scan_number_loop, hcur] at h
      injection h with h
      subst h
      exact ⟨Nat.le_refl _, rfl, fun w => w, fun c hc => by simp [hcur] at hc⟩
    · by_cases hd : rust_is_digit10 c = true
      · rcases bump_cases l with hb | ⟨l₂, hb, hp, hs, hw₂⟩
        · simp [scan_number_loop, hcur, hd, hb] at h
        · simp only [scan_number_loop, hcur, hd, if_true, res_bind_eq, hb,
            res_bind_ok] at h
          obtain ⟨h1, h2, h3, h4⟩ := ih l₂ l' h
          exact ⟨by omega, by rw [h2, hs], fun _ => h3 hw₂, h4⟩
      · simp only [scan_number_loop, hcur, hd, if_false] at h
        injection h with h
        subst h
        refine ⟨Nat.le_refl _, rfl, fun w => w, fun c' hc' => ?_⟩
        rw [hcur] at hc'
        injection hc' with hc'
        subst hc'
        simpa using hd

theorem scan_ident_loop_ok : ∀ (f : Nat) (l l' : Lexer),
    scan_ident_loop f l = .ok l' →
    l.pos ≤ l'.pos ∧ l'.src = l.src ∧ (Wf l → Wf l') ∧
    (∀ c, l'.current_char = some c → can_continue_identifier c = false) := by
  intro f
  induction f with
  | zero => intro l l' h; simp [scan_ident_loop] at h
  | succ f ih =>
    intro l l' h
    rcases hcur : l.current_char with _ | c
    · simp only [scan_ident_loop, hcur] at h
      injection h with h
      subst h
      exact ⟨Nat.le_refl _, rfl, fun w => w, fun c hc => by simp [hcur] at hc⟩
    · by_cases hd : can_continue_identifier c = true
      · rcases bump_cases l with hb | ⟨l₂, hb, hp, hs, hw₂⟩
        · simp [scan_ident_loop, hcur, hd, hb] at h
        · simp only [scan_ident_loop, hcur, hd, if_true, res_bind_eq, hb,
            res_bind_ok] at h
          obtain ⟨h1, h2, h3, h4⟩ := ih l₂ l' h
          exact ⟨by omega, by rw [h2, hs], fun _ => h3 hw₂, h4⟩
      · simp only [scan_ident_loop, hcur, hd, if_false] at h
        injection h with h
        subst h
        refine ⟨Nat.le_refl _, rfl, fun w => w, fun c' hc' => ?_⟩
        rw [hcur] at hc'
        injection hc' with hc'
        subst hc'
        simpa using hd

theorem scan_string_loop_ok : ∀ (f : Nat) (l l' : Lexer),
    scan_string_loop f l = .ok l' →
    l.pos ≤ l'.pos ∧ l'.src = l.src ∧ (Wf l → Wf l') ∧
    (∀ c, l'.current_char = some c → c = '"') := by
  intro f
  induction f with
  | zero => intro l l' h; simp [scan_string_loop] at h
  | succ f ih =>
    intro l l' h
    rcases hcur : l.current_char with _ | c
    · simp only [scan_string_loop, hcur] at h
      injection h with h
      subst h
      exact ⟨Nat.le_refl _, rfl, fun w => w, fun c hc => by simp [hcur] at hc⟩
    · by_cases hd : c = '"'
      · simp only [scan_string_loop, hcur, hd, ne_eq, not_true_eq_false,
          if_false] at h
        injection h with h
        subst h
        refine ⟨Nat.le_refl _, rfl, fun w => w, fun c' hc' => ?_⟩
        rw [hcur] at hc'
        injection hc' with hc'
        subst hc'
        exact hd
      · rcases bump_cases l with hb | ⟨l₂, hb, hp, hs, hw₂⟩
        · simp [scan_string_loop, hcur, hd, hb] at h
        · simp only [scan_string_loop, hcur, hd, ne_eq, not_false_eq_true,
            if_true, res_bind_eq, hb, res_bind_ok] at h
          obtain ⟨h1, h2, h3, h4⟩ := ih l₂ l' h
          exact ⟨by omega, by rw [h2, hs], fun _ => h3 hw₂, h4⟩

theorem skip_line_comment_loop_ok : ∀ (f : Nat) (l l' : Lexer),
    skip_line_comment_loop f l = .ok l' →
    l.pos ≤ l'.pos ∧ l'.src = l.src ∧ (Wf l → Wf l') := by
  intro f
  induction f with
  | zero => intro l l' h; simp [skip_line_comment_loop] at h
  | succ f ih =>
    intro l l' h
    rcases hcur : l.current_char with _ | c
    · simp only [skip_line_comment_loop, hcur] at h
      injection h with h
      subst h
      exact ⟨Nat.le_refl _, rfl, fun w => w⟩
    · by_cases hd : c = '\n'
      · simp only [skip_line_comment_loop, hcur, hd, if_true] at h
        injection h with h
        subst h
        exact ⟨Nat.le_refl _, rfl, fun w => w⟩
      · rcases bump_cases l with hb | ⟨l₂, hb, hp, hs, hw₂⟩
        · simp [skip_line_comment_loop, hcur, hd, hb] at h
        · simp only [skip_line_comment_loop, hcur, hd, if_false, res_bind_eq,
            hb, res_bind_ok] at h
          obtain ⟨h1, h2, h3⟩ := ih l₂ l' h
          exact ⟨by omega, by rw [h2, hs], fun _ => h3 hw₂⟩

theorem skip_block_comment_loop_ok : ∀ (f : Nat) (l l' : Lexer),
    skip_block_comment_loop f l = .ok l' →
    l.pos ≤ l'.pos ∧ l'.src = l.src ∧ (Wf l → Wf l') := by
  intro f
  induction f with
  | zero => intro l l' h; simp [skip_block_comment_loop] at h
  | succ f ih =>
    intro l l' h
    rcases hcur : l.current_char with _ | c
    · simp only [skip_block_comment_loop, hcur] at h
      injection h with h
      subst h
      exact ⟨Nat.le_refl _, rfl, fun w => w⟩
    · by_cases hd : c = '*'
      · rcases hnc : l.next_char with nc | p
        · by_cases hnc2 : nc = some '/'
          · simp only [skip_block_comment_loop, hcur, hd, if_true, res_bind_eq,
              hnc, res_bind_ok, hnc2, if_true] at h
            injection h with h
            subst h
            exact ⟨Nat.le_refl _, rfl, fun w => w⟩
          · rcases bump_cases l with hb | ⟨l₂, hb, hp, hs, hw₂⟩
            · simp [skip_block_comment_loop, hcur, hd, hnc, hnc2, hb] at h
            · simp only [skip_block_comment_loop, hcur, hd, if_true,
                res_bind_eq, hnc, res_bind_ok, hnc2, if_false, hb] at h
              obtain ⟨h1, h2, h3⟩ := ih l₂ l' h
              exact ⟨by omega, by rw [h2, hs], fun _ => h3 hw₂⟩
        · simp [skip_block_comment_loop, hcur, hd, hnc] at h
        · simp [skip_block_comment_loop, hcur, hd, hnc] at h
      · rcases bump_cases l with hb | ⟨l₂, hb, hp, hs, hw₂⟩
        · simp [skip_block_comment_loop, hcur, hd, hb] at h
        · simp only [skip_block_comment_loop, hcur, hd, if_false, res_bind_eq,
            hb, res_bind_ok] at h
          obtain ⟨h1, h2, h3⟩ := ih l₂ l' h
          exact ⟨by omega, by rw [h2, hs], fun _ => h3 hw₂⟩

/-- State of the cursor after a completed trivia run: end of input, or a
char that starts no trivia (not whitespace, and `/` only with a lookahead
that opens no comment). -/
def PostTrivia (l : Lexer) : Prop :=
  ∀ c, l.current_char = some c →
    rust_is_whitespace c = false ∧
    (c = '/' → ∃ nc, l.next_char = .ok nc ∧ nc ≠ some '*' ∧ nc ≠ some '/')

theorem skip_trivia_ok : ∀ (f : Nat) (l : Lexer) (nl : Bool) (l' : Lexer) (nl' : Bool),
    skip_trivia f l nl = .ok (l', nl') →
    l.pos ≤ l'.pos ∧ l'.src = l.src ∧ (Wf l → Wf l') ∧ PostTrivia l' ∧
    (nl = false → nl' = true → l.pos < l'.pos) := by
  intro f
  induction f with
  | zero => intro l nl l' nl' h; simp [skip_trivia] at h
  | succ f ih =>
    intro l nl l' nl' h
    rcases hcur : l.current_char with _ | c
    · simp only [skip_trivia, hcur] at h
      injection h with h
      injection h with h1 h2
      subst h1
      subst h2
      refine ⟨Nat.le_refl _, rfl, fun w => w, ?_, ?_⟩
      · intro c hc
        rw [hcur] at hc
        cases hc
      · intro h1 h2
        rw [h1] at h2
        cases h2
    · by_cases hsl : c = '/'
      · subst hsl
        rcases hnc : l.next_char with nc | p
        · by_cases hstar : nc = some '*'
          · rcases bump_cases l with hb1 | ⟨l₂, hb1, hp2, hs2, hw2⟩
            · simp [skip_trivia, hcur, hnc, hstar, hb1] at h
            · rcases bump_cases l₂ with hb2 | ⟨l₃, hb2, hp3, hs3, hw3⟩
              · simp [skip_trivia, hcur, hnc, hstar, hb1, hb2] at h
              · rcases hbl : skip_block_comment_loop f l₃ with l₄ | p
                · obtain ⟨hm4, hsrc4, hwf4⟩ := skip_block_comment_loop_ok f l₃ l₄ hbl
                  rcases bump_cases l₄ with hb4 | ⟨l₅, hb4, hp5, hs5, hw5⟩
                  · simp [skip_trivia, hcur, hnc, hstar, hb1, hb2, hbl, hb4] at h
                  · rcases bump_cases l₅ with hb5 | ⟨l₆, hb5, hp6, hs6, hw6⟩
                    · simp [skip_trivia, hcur, hnc, hstar, hb1, hb2, hbl, hb4,
                        hb5] at h
                    · simp only [skip_trivia, hcur, hnc, hstar, if_true,
                        res_bind_eq, res_bind_ok, hb1, hb2, hbl, hb4, hb5] at h
                      obtain ⟨ih1, ih2, ih3, ih4, ih5⟩ := ih l₆ _ l' nl' h
                      refine ⟨by omega, by rw [ih2, hs6, hs5, hsrc4, hs3, hs2],
                        fun _ => ih3 hw6, ih4, ?_⟩
                      intro _ _
                      omega
                · simp [skip_trivia, hcur, hnc, hstar, hb1, hb2, hbl] at h
                · simp [skip_trivia, hcur, hnc, hstar, hb1, hb2, hbl] at h
          · by_cases hslash : nc = some '/'
            · rcases hll : skip_line_comment_loop f l with l₂ | p
              · obtain ⟨hm2, hsrc2, hwf2⟩ := skip_line_comment_loop_ok f l l₂ hll
                simp only [skip_trivia, hcur, hnc, hstar, hslash, if_true,
                  if_false, res_bind_eq, res_bind_ok, hll] at h
                have w2 : (decide (('/' : Char) = '\n')) = false := by decide
                rw [w2, Bool.or_false] at h
                obtain ⟨ih1, ih2, ih3, ih4, ih5⟩ := ih l₂ nl l' nl' h
                refine ⟨by omega, by rw [ih2, hsrc2], fun w => ih3 (hwf2 w),
                  ih4, ?_⟩
                intro h1 h2
                have := ih5 h1 h2
                omega
              · simp [skip_trivia, hcur, hnc, hstar, hslash, hll] at h
              · simp [skip_trivia, hcur, hnc, hstar, hslash, hll] at h
            · have w1 : rust_is_whitespace '/' = false := by decide
              have w2 : (decide (('/' : Char) = '\n')) = false := by decide
              simp only [skip_trivia, hcur, hnc, hstar, hslash, if_true,
                if_false, res_bind_eq, res_bind_ok, w1, w2, Bool.or_false] at h
              injection h with h
              injection h with h1 h2
              subst h1
              subst h2
              refine ⟨Nat.le_refl _, rfl, fun w => w, ?_, ?_⟩
              · intro c' hc'
                rw [hcur] at hc'
                injection hc' with hc'
                subst hc'
                exact ⟨w1, fun _ => ⟨nc, hnc, hstar, hslash⟩⟩
              · intro h1 h2
                rw [h1] at h2
                cases h2
        · simp [skip_trivia, hcur, hnc] at h
        · simp [skip_trivia, hcur, hnc] at h
      · by_cases hws : rust_is_whitespace c = true
        · rcases bump_cases l with hb1 | ⟨l₂, hb1, hp2, hs2, hw2⟩
          · simp [skip_trivia, hcur, hsl, hws, hb1] at h
          · simp only [skip_trivia, hcur, hsl, hws, if_true, if_false,
              res_bind_eq, res_bind_ok, hb1] at h
            obtain ⟨ih1, ih2, ih3, ih4, ih5⟩ := ih l₂ _ l' nl' h
            refine ⟨by omega, by rw [ih2, hs2], fun _ => ih3 hw2, ih4, ?_⟩
            intro _ _
            omega
        · have hwsf : rust_is_whitespace c = false := by
            cases hq : rust_is_whitespace c
            · rfl
            · exact absurd hq hws
          have hnotn : c ≠ '\n' := by
            intro hc
            subst hc
            simp [rust_is_whitespace] at hwsf
          have hdec : (decide (c = '\n')) = false := decide_eq_false hnotn
          simp only [skip_trivia, hcur, hsl, hwsf, if_false, hdec,
            Bool.or_false] at h
          injection h with h
          injection h with h1 h2
          subst h1
          subst h2
          refine ⟨Nat.le_refl _, rfl, fun w => w, ?_, ?_⟩
          · intro c' hc'
            rw [hcur] at hc'
            injection hc' with hc'
            subst hc'
            exact ⟨hwsf, fun hc => absurd hc hsl⟩
          · intro h1 h2
            rw [h1] at h2
            cases h2

/-- Re-entry: from a state that a trivia run has already normalised, the
trivia loop returns immediately without consuming anything or flagging a
line break. -/
theorem skip_trivia_post : ∀ (f : Nat) (l : Lexer) (nl : Bool), 0 < f →
    PostTrivia l → skip_trivia f l nl = .ok (l, nl) := by
  intro f l nl hf hp
  cases f with
  | zero => cases hf
  | succ f =>
    rcases hcur : l.current_char with _ | c
    · simp [skip_trivia, hcur]
    · obtain ⟨hws, hcl⟩ := hp c hcur
      have hnotn : c ≠ '\n' := by
        intro hc
        subst hc
        simp [rust_is_whitespace] at hws
      have hdec : (decide (c = '\n')) = false := decide_eq_false hnotn
      by_cases hsl : c = '/'
      · subst hsl
        obtain ⟨nc, hnc, h1, h2⟩ := hcl rfl
        simp [skip_trivia, hcur, hnc, h1, h2, hws, hdec]
      · simp [skip_trivia, hcur, hsl, hws, hdec]

/-- Postcondition bundle for a completed token dispatch, measured from an
intermediate state: cursor did not move backwards, source unchanged,
invariant holds, and the produced token is never `Whitespace`. -/
def StepOk (l : Lexer) (t : Token) (l' : Lexer) : Prop :=
  l.pos ≤ l'.pos ∧ l'.src = l.src ∧ Wf l' ∧ t ≠ Token.Whitespace

/-- As `StepOk`, but with strict cursor progress. -/
def StepLt (l : Lexer) (t : Token) (l' : Lexer) : Prop :=
  l.pos < l'.pos ∧ l'.src = l.src ∧ Wf l' ∧ t ≠ Token.Whitespace

theorem stepOk_of_lt {l : Lexer} {t : Token} {l' : Lexer} :
    StepLt l t l' → StepOk l t l' :=
  fun ⟨a, b, c, d⟩ => ⟨Nat.le_of_lt a, b, c, d⟩

theorem stepOk_ok {l l' : Lexer} {tok t : Token} (hw : Wf l)
    (hne : tok ≠ Token.Whitespace)
    (h : (Res.ok (tok, l) : Res (Token × Lexer)) = .ok (t, l')) :
    StepOk l t l' := by
  injection h with h
  injection h with h1 h2
  subst h1
  subst h2
  exact ⟨Nat.le_refl _, rfl, hw, hne⟩

theorem stepLt_bump {l l' : Lexer} {t : Token} {k : Lexer → Res (Token × Lexer)}
    (h : Res.bind l.bump k = .ok (t, l'))
    (hk : ∀ l₂, l₂.pos = l.pos + 1 → l₂.src = l.src → Wf l₂ →
      k l₂ = .ok (t, l') → StepOk l₂ t l') :
    StepLt l t l' := by
  rcases bump_cases l with hb | ⟨l₂, hb, hp, hs, hw⟩
  · rw [hb] at h
    simp at h
  · rw [hb, res_bind_ok] at h
    obtain ⟨h1, h2, h3, h4⟩ := hk l₂ hp hs hw h
    exact ⟨by omega, by rw [h2, hs], h3, h4⟩

theorem stepLt_bump_pure {l l' : Lexer} {tok t : Token}
    (hne : tok ≠ Token.Whitespace)
    (h : Res.bind l.bump (fun l₂ => (Res.ok (tok, l₂) : Res (Token × Lexer))) = .ok (t, l')) :
    StepLt l t l' :=
  stepLt_bump h (fun _ _ _ hw hk => stepOk_ok hw hne hk)

theorem stepOk_nextchar {l : Lexer} {t : Token} {l' : Lexer}
    {k : Option Char → Res (Token × Lexer)}
    (h : Res.bind l.next_char k = .ok (t, l'))
    (hk : ∀ nc, l.next_char = .ok nc → k nc = .ok (t, l') → StepOk l t l') :
    StepOk l t l' := by
  rcases hnc : l.next_char with nc | p
  · rw [hnc, res_bind_ok] at h
    exact hk nc hnc h
  · rw [hnc] at h
    simp at h
  · rw [hnc] at h
    simp at h


/-- Every spelling is classified either as its keyword (when it is in the
keyword set) or as an identifier carrying the very same text. -/
theorem keyword_lookup_spec (s : List Char) :
    (s ∈ keywords_list ∧ ∃ k, keyword_lookup s = Token.Keyword k) ∨
    (s ∉ keywords_list ∧ keyword_lookup s = Token.Ident s) := by
  unfold keyword_lookup
  by_cases h1 : s = ("break".toList)
  case pos => exact .inl ⟨by simp [keywords_list, h1], by rw [if_pos h1]; exact ⟨_, rfl⟩⟩
  rw [if_neg h1]
  by_cases h2 : s = ("case".toList)
  case pos => exact .inl ⟨by simp [keywords_list, h2], by rw [if_pos h2]; exact ⟨_, rfl⟩⟩
  rw [if_neg h2]
  by_cases h3 : s = ("chan".toList)
  case pos => exact .inl ⟨by simp [keywords_list, h3], by rw [if_pos h3]; exact ⟨_, rfl⟩⟩
  rw [if_neg h3]
  by_cases h4 : s = ("const".toList)
  case pos => exact .inl ⟨by simp [keywords_list, h4], by rw [if_pos h4]; exact ⟨_, rfl⟩⟩
  rw [if_neg h4]
  by_cases h5 : s = ("continue".toList)
  case pos => exact .inl ⟨by simp [keywords_list, h5], by rw [if_pos h5]; exact ⟨_, rfl⟩⟩
  rw [if_neg h5]
  by_cases h6 : s = ("default".toList)
  case pos => exact .inl ⟨by simp [keywords_list, h6], by rw [if_pos h6]; exact ⟨_, rfl⟩⟩
  rw [if_neg h6]
  by_cases h7 : s = ("defer".toList)
  case pos => exact .inl ⟨by simp [keywords_list, h7], by rw [if_pos h7]; exact ⟨_, rfl⟩⟩
  rw [if_neg h7]
  by_cases h8 : s = ("else".toList)
  case pos => exact .inl ⟨by simp [keywords_list, h8], by rw [if_pos h8]; exact ⟨_, rfl⟩⟩
  rw [if_neg h8]
  by_cases h9 : s = ("fallthrough".toList)
  case pos => exact .inl ⟨by simp [keywords_list, h9], by rw [if_pos h9]; exact ⟨_, rfl⟩⟩
  rw [if_neg h9]
  by_cases h10 : s = ("for".toList)
  case pos => exact .inl ⟨by simp [keywords_list, h10], by rw [if_pos h10]; exact ⟨_, rfl⟩⟩
  rw [if_neg h10]
  by_cases h11 : s = ("func".toList)
  case pos => exact .inl ⟨by simp [keywords_list, h11], by rw [if_pos h11]; exact ⟨_, rfl⟩⟩
  rw [if_neg h11]
  by_cases h12 : s = ("go".toList)
  case pos => exact .inl ⟨by simp [keywords_list, h12], by rw [if_pos h12]; exact ⟨_, rfl⟩⟩
  rw [if_neg h12]
  by_cases h13 : s = ("goto".toList)
  case pos => exact .inl ⟨by simp [keywords_list, h13], by rw [if_pos h13]; exact ⟨_, rfl⟩⟩
  rw [if_neg h13]
  by_cases h14 : s = ("if".toList)
  case pos => exact .inl ⟨by simp [keywords_list, h14], by rw [if_pos h14]; exact ⟨_, rfl⟩⟩
  rw [if_neg h14]
  by_cases h15 : s = ("import".toList)
  case pos => exact .inl ⟨by simp [keywords_list, h15], by rw [if_pos h15]; exact ⟨_, rfl⟩⟩
  rw [if_neg h15]
  by_cases h16 : s = ("interface".toList)
  case pos => exact .inl ⟨by simp [keywords_list, h16], by rw [if_pos h16]; exact ⟨_, rfl⟩⟩
  rw [if_neg h16]
  by_cases h17 : s = ("map".toList)
  case pos => exact .inl ⟨by simp [keywords_list, h17], by rw [if_pos h17]; exact ⟨_, rfl⟩⟩
  rw [if_neg h17]
  by_cases h18 : s = ("package".toList)
  case pos => exact .inl ⟨by simp [keywords_list, h18], by rw [if_pos h18]; exact ⟨_, rfl⟩⟩
  rw [if_neg h18]
  by_cases h19 : s = ("range".toList)
  case pos => exact .inl ⟨by simp [keywords_list, h19], by rw [if_pos h19]; exact ⟨_, rfl⟩⟩
  rw [if_neg h19]
  by_cases h20 : s = ("return".toList)
  case pos => exact .inl ⟨by simp [keywords_list, h20], by rw [if_pos h20]; exact ⟨_, rfl⟩⟩
  rw [if_neg h20]
  by_cases h21 : s = ("select".toList)
  case pos => exact .inl ⟨by simp [keywords_list, h21], by rw [if_pos h21]; exact ⟨_, rfl⟩⟩
  rw [if_neg h21]
  by_cases h22 : s = ("struct".toList)
  case pos => exact .inl ⟨by simp [keywords_list, h22], by rw [if_pos h22]; exact ⟨_, rfl⟩⟩
  rw [if_neg h22]
  by_cases h23 : s = ("switch".toList)
  case pos => exact .inl ⟨by simp [keywords_list, h23], by rw [if_pos h23]; exact ⟨_, rfl⟩⟩
  rw [if_neg h23]
  by_cases h24 : s = ("type".toList)
  case pos => exact .inl ⟨by simp [keywords_list, h24], by rw [if_pos h24]; exact ⟨_, rfl⟩⟩
  rw [if_neg h24]
  by_cases h25 : s = ("var".toList)
  case pos => exact .inl ⟨by simp [keywords_list, h25], by rw [if_pos h25]; exact ⟨_, rfl⟩⟩
  rw [if_neg h25]
  refine .inr ⟨?_, rfl⟩
  intro hmem
  simp only [keywords_list, List.mem_cons, List.not_mem_nil, or_false] at hmem
  tauto

theorem keyword_lookup_ne_ws (s : List Char) :
    keyword_lookup s ≠ Token.Whitespace := by
  rcases keyword_lookup_spec s with ⟨_, k, hk⟩ | ⟨_, hk⟩ <;> rw [hk] <;> simp

/-- A number scan entered on a digit strictly advances the cursor. -/
theorem scan_number_lt {f : Nat} {c : Char} {l : Lexer} {r : Literal × Lexer}
    (hcur : l.current_char = some c) (hd : rust_is_digit10 c = true)
    (h : scan_number f l = .ok r) :
    l.pos < r.2.pos ∧ r.2.src = l.src ∧ Wf r.2 := by
  cases f with
  | zero => simp [scan_number, scan_number_loop] at h
  | succ g =>
    unfold scan_number at h
    rcases bump_cases l with hb | ⟨l₂, hb, hp, hs, hw⟩
    · simp [scan_number_loop, hcur, hd, hb] at h
    · simp only [scan_number_loop, hcur, hd, if_true, res_bind_eq,
        res_bind_ok, hb] at h
      rcases hlp : scan_number_loop g l₂ with l₃ | p
      · obtain ⟨h1, h2, h3, _⟩ := scan_number_loop_ok g l₂ l₃ hlp
        rw [hlp, res_bind_ok] at h
        rcases hsl : str_slice l₃.src l.pos l₃.pos with _ | s
        · rw [hsl] at h
          simp [liftSlice] at h
        · rw [hsl] at h
          simp only [liftSlice, res_bind_ok, res_pure_eq] at h
          injection h with h
          subst h
          refine ⟨?_, ?_, ?_⟩
          · show l.pos < l₃.pos
            omega
          · show l₃.src = l.src
            rw [h2, hs]
          · show Wf l₃
            exact h3 hw
      · rw [hlp] at h
        simp at h
      · rw [hlp] at h
        simp at h

theorem can_continue_of_start {c : Char} (h : can_start_identifier c = true) :
    can_continue_identifier c = true := by
  unfold can_start_identifier at h
  unfold can_continue_identifier
  rw [h]
  rfl

theorem scan_token_ok (f : Nat) (c : Char) (l l' : Lexer) (t : Token)
    (hcur : l.current_char = some c)
    (h : scan_token f c l = .ok (t, l')) : StepLt l t l' := by
  unfold scan_token at h
  by_cases hc1 : c = '('
  case pos =>
    rw [if_pos hc1] at h
    simp only [res_bind_eq, res_pure_eq] at h
    exact stepLt_bump_pure (by simp) h
  rw [if_neg hc1] at h
  by_cases hc2 : c = ')'
  case pos =>
    rw [if_pos hc2] at h
    simp only [res_bind_eq, res_pure_eq] at h
    exact stepLt_bump_pure (by simp) h
  rw [if_neg hc2] at h
  by_cases hc3 : c = '\x7b'
  case pos =>
    rw [if_pos hc3] at h
    simp only [res_bind_eq, res_pure_eq] at h
    exact stepLt_bump_pure (by simp) h
  rw [if_neg hc3] at h
  by_cases hc4 : c = '\x7d'
  case pos =>
    rw [if_pos hc4] at h
    simp only [res_bind_eq, res_pure_eq] at h
    exact stepLt_bump_pure (by simp) h
  rw [if_neg hc4] at h
  by_cases hc5 : c = '['
  case pos =>
    rw [if_pos hc5] at h
    simp only [res_bind_eq, res_pure_eq] at h
    exact stepLt_bump_pure (by simp) h
  rw [if_neg hc5] at h
  by_cases hc6 : c = ']'
  case pos =>
    rw [if_pos hc6] at h
    simp only [res_bind_eq, res_pure_eq] at h
    exact stepLt_bump_pure (by simp) h
  rw [if_neg hc6] at h
  by_cases hc7 : c = ','
  case pos =>
    rw [if_pos hc7] at h
    simp only [res_bind_eq, res_pure_eq] at h
    exact stepLt_bump_pure (by simp) h
  rw [if_neg hc7] at h
  by_cases hc8 : c = ';'
  case pos =>
    rw [if_pos hc8] at h
    simp only [res_bind_eq, res_pure_eq] at h
    exact stepLt_bump_pure (by simp) h
  rw [if_neg hc8] at h
  by_cases hc9 : c = '.'
  case pos =>
    rw [if_pos hc9] at h
    simp only [res_bind_eq, res_pure_eq] at h
    refine stepLt_bump h ?_
    intro l₂ hp hs hw hk
    split_ifs at hk
    · refine stepOk_nextchar hk ?_
      intro nc hnc hk2
      split_ifs at hk2
      · refine stepOk_of_lt (stepLt_bump hk2 ?_)
        intro l₃ hp3 hs3 hw3 hk3
        exact stepOk_of_lt (stepLt_bump_pure (by simp) hk3)
      · exact stepOk_ok hw (by simp) hk2
    · exact stepOk_ok hw (by simp) hk
  rw [if_neg hc9] at h
  by_cases hc10 : c = ':'
  case pos =>
    rw [if_pos hc10] at h
    simp only [res_bind_eq, res_pure_eq] at h
    refine stepLt_bump h ?_
    intro l₂ hp hs hw hk
    split_ifs at hk
    · exact stepOk_of_lt (stepLt_bump_pure (by simp) hk)
    · exact stepOk_ok hw (by simp) hk
  rw [if_neg hc10] at h
  by_cases hc11 : c = '+'
  case pos =>
    rw [if_pos hc11] at h
    simp only [res_bind_eq, res_pure_eq] at h
    refine stepLt_bump h ?_
    intro l₂ hp hs hw hk
    split_ifs at hk
    · exact stepOk_of_lt (stepLt_bump_pure (by simp) hk)
    · exact stepOk_of_lt (stepLt_bump_pure (by simp) hk)
    · exact stepOk_ok hw (by simp) hk
  rw [if_neg hc11] at h
  by_cases hc12 : c = '-'
  case pos =>
    rw [if_pos hc12] at h
    simp only [res_bind_eq, res_pure_eq] at h
    refine stepLt_bump h ?_
    intro l₂ hp hs hw hk
    split_ifs at hk
    · exact stepOk_of_lt (stepLt_bump_pure (by simp) hk)
    · exact stepOk_of_lt (stepLt_bump_pure (by simp) hk)
    · exact stepOk_ok hw (by simp) hk
  rw [if_neg hc12] at h
  by_cases hc13 : c = '*'
  case pos =>
    rw [if_pos hc13] at h
    simp only [res_bind_eq, res_pure_eq] at h
    refine stepLt_bump h ?_
    intro l₂ hp hs hw hk
    split_ifs at hk
    · exact stepOk_of_lt (stepLt_bump_pure (by simp) hk)
    · exact stepOk_ok hw (by simp) hk
  rw [if_neg hc13] at h
  by_cases hc14 : c = '/'
  case pos =>
    rw [if_pos hc14] at h
    simp only [res_bind_eq, res_pure_eq] at h
    refine stepLt_bump h ?_
    intro l₂ hp hs hw hk
    split_ifs at hk
    · exact stepOk_of_lt (stepLt_bump_pure (by simp) hk)
    · exact stepOk_ok hw (by simp) hk
  rw [if_neg hc14] at h
  by_cases hc15 : c = '<'
  case pos =>
    rw [if_pos hc15] at h
    simp only [res_bind_eq, res_pure_eq] at h
    refine stepLt_bump h ?_
    intro l₂ hp hs hw hk
    split_ifs at hk
    · refine stepOk_of_lt (stepLt_bump hk ?_)
      intro l₃ hp3 hs3 hw3 hk3
      split_ifs at hk3
      · exact stepOk_of_lt (stepLt_bump_pure (by simp) hk3)
      · exact stepOk_ok hw3 (by simp) hk3
    · exact stepOk_of_lt (stepLt_bump_pure (by simp) hk)
    · exact stepOk_of_lt (stepLt_bump_pure (by simp) hk)
    · exact stepOk_ok hw (by simp) hk
  rw [if_neg hc15] at h
  by_cases hc16 : c = '>'
  case pos =>
    rw [if_pos hc16] at h
    simp only [res_bind_eq, res_pure_eq] at h
    refine stepLt_bump h ?_
    intro l₂ hp hs hw hk
    split_ifs at hk
    · refine stepOk_of_lt (stepLt_bump hk ?_)
      intro l₃ hp3 hs3 hw3 hk3
      split_ifs at hk3
      · exact stepOk_of_lt (stepLt_bump_pure (by simp) hk3)
      · exact stepOk_ok hw3 (by simp) hk3
    · exact stepOk_of_lt (stepLt_bump_pure (by simp) hk)
    · exact stepOk_ok hw (by simp) hk
  rw [if_neg hc16] at h
  by_cases hc17 : c = '|'
  case pos =>
    rw [if_pos hc17] at h
    simp only [res_bind_eq, res_pure_eq] at h
    refine stepLt_bump h ?_
    intro l₂ hp hs hw hk
    split_ifs at hk
    · exact stepOk_of_lt (stepLt_bump_pure (by simp) hk)
    · exact stepOk_of_lt (stepLt_bump_pure (by simp) hk)
    · exact stepOk_ok hw (by simp) hk
  rw [if_neg hc17] at h
  by_cases hc18 : c = '&'
  case pos =>
    rw [if_pos hc18] at h
    simp only [res_bind_eq, res_pure_eq] at h
    refine stepLt_bump h ?_
    intro l₂ hp hs hw hk
    split_ifs at hk
    · exact stepOk_of_lt (stepLt_bump_pure (by simp) hk)
    · exact stepOk_of_lt (stepLt_bump_pure (by simp) hk)
    · refine stepOk_of_lt (stepLt_bump hk ?_)
      intro l₃ hp3 hs3 hw3 hk3
      split_ifs at hk3
      · exact stepOk_of_lt (stepLt_bump_pure (by simp) hk3)
      · exact stepOk_ok hw3 (by simp) hk3
    · exact stepOk_ok hw (by simp) hk
  rw [if_neg hc18] at h
  by_cases hc19 : c = '!'
  case pos =>
    rw [if_pos hc19] at h
    simp only [res_bind_eq, res_pure_eq] at h
    refine stepLt_bump h ?_
    intro l₂ hp hs hw hk
    split_ifs at hk
    · exact stepOk_of_lt (stepLt_bump_pure (by simp) hk)
    · exact stepOk_ok hw (by simp) hk
  rw [if_neg hc19] at h
  by_cases hc20 : c = '^'
  case pos =>
    rw [if_pos hc20] at h
    simp only [res_bind_eq, res_pure_eq] at h
    refine stepLt_bump h ?_
    intro l₂ hp hs hw hk
    split_ifs at hk
    · exact stepOk_of_lt (stepLt_bump_pure (by simp) hk)
    · exact stepOk_ok hw (by simp) hk
  rw [if_neg hc20] at h
  by_cases hc21 : c = '%'
  case pos =>
    rw [if_pos hc21] at h
    simp only [res_bind_eq, res_pure_eq] at h
    refine stepLt_bump h ?_
    intro l₂ hp hs hw hk
    split_ifs at hk
    · exact stepOk_of_lt (stepLt_bump_pure (by simp) hk)
    · exact stepOk_ok hw (by simp) hk
  rw [if_neg hc21] at h
  by_cases hc22 : rust_is_digit10 c = true
  case pos =>
    rw [if_pos hc22] at h
    simp only [res_bind_eq, res_pure_eq] at h
    rcases hsn : scan_number f l with r | p
    · rw [hsn, res_bind_ok] at h
      obtain ⟨h1, h2, h3⟩ := scan_number_lt hcur hc22 hsn
      injection h with h
      injection h with ht hl
      subst ht
      subst hl
      exact ⟨h1, h2, h3, by simp⟩
    · rw [hsn] at h
      simp at h
    · rw [hsn] at h
      simp at h
  rw [if_neg hc22] at h
  by_cases hc23 : can_start_identifier c = true
  case pos =>
    rw [if_pos hc23] at h
    simp only [res_bind_eq, res_pure_eq] at h
    cases f with
    | zero => simp [scan_ident_loop] at h
    | succ g =>
      have hcc : can_continue_identifier c = true := can_continue_of_start hc23
      rcases bump_cases l with hb | ⟨l₂, hb, hp, hs, hw⟩
      · simp [scan_ident_loop, hcur, hcc, hb] at h
      · simp only [scan_ident_loop, hcur, hcc, if_true, res_bind_eq,
          res_bind_ok, hb] at h
        rcases hlp : scan_ident_loop g l₂ with l₃ | p
        · obtain ⟨h1, h2, h3, _⟩ := scan_ident_loop_ok g l₂ l₃ hlp
          rw [hlp, res_bind_ok] at h
          rcases hsl : str_slice l₃.src l.pos l₃.pos with _ | s
          · rw [hsl] at h
            simp [liftSlice] at h
          · rw [hsl] at h
            simp only [liftSlice, res_bind_ok] at h
            injection h with h
            injection h with ht hl
            subst ht
            subst hl
            exact ⟨by omega, by rw [h2, hs], h3 hw, keyword_lookup_ne_ws s⟩
        · rw [hlp] at h
          simp at h
        · rw [hlp] at h
          simp at h
  rw [if_neg hc23] at h
  by_cases hc24 : c = '"'
  case pos =>
    rw [if_pos hc24] at h
    simp only [res_bind_eq, res_pure_eq] at h
    refine stepLt_bump h ?_
    intro l₂ hp hs hw hk
    rcases hlp : scan_string_loop f l₂ with l₃ | p
    · obtain ⟨h1, h2, h3, _⟩ := scan_string_loop_ok f l₂ l₃ hlp
      rw [hlp, res_bind_ok] at hk
      rcases hsl : str_slice l₃.src l₂.pos l₃.pos with _ | s
      · rw [hsl] at hk
        simp [liftSlice] at hk
      · rw [hsl] at hk
        simp only [liftSlice, res_bind_ok] at hk
        rcases bump_cases l₃ with hb4 | ⟨l₄, hb4, hp4, hs4, hw4⟩
        · rw [hb4] at hk
          simp at hk
        · rw [hb4, res_bind_ok] at hk
          injection hk with hk
          injection hk with ht hl
          subst ht
          subst hl
          exact ⟨by omega, by rw [hs4, h2], hw4, by simp⟩
    · rw [hlp] at hk
      simp at hk
    · rw [hlp] at hk
      simp at hk
  rw [if_neg hc24] at h
  simp at h

theorem next_char_ne_fuel (l : Lexer) : l.next_char ≠ .fuel := by
  unfold Lexer.next_char
  by_cases h : l.pos + 1 < utf8Len l.src
  · simp only [h, if_true]
    rcases char_at l.src (l.pos + 1) with _ | c <;> simp
  · simp [h]

theorem bump_ne_fuel (l : Lexer) : l.bump ≠ .fuel := by
  rcases bump_cases l with hb | ⟨l₂, hb, _, _, _⟩ <;> rw [hb] <;> simp

theorem bump_ok_props {l l₂ : Lexer} (h : l.bump = .ok l₂) :
    l₂.pos = l.pos + 1 ∧ l₂.src = l.src ∧ Wf l₂ := by
  rcases bump_cases l with hb | ⟨l₃, hb, hp, hs, hw⟩
  · rw [hb] at h
    cases h
  · rw [hb] at h
    injection h with h
    subst h
    exact ⟨hp, hs, hw⟩

theorem liftSlice_ne_fuel {α : Type} (o : Option α) : liftSlice o ≠ .fuel := by
  cases o <;> simp [liftSlice]

theorem ne_fuel_ok {α : Type} {a : α} : (Res.ok a : Res α) ≠ .fuel := by simp

theorem ne_fuel_bind {α β : Type} {x : Res α} {k : α → Res β}
    (hx : x ≠ .fuel) (hk : ∀ a, x = .ok a → k a ≠ .fuel) :
    Res.bind x k ≠ .fuel := by
  rcases hxv : x with a | p
  · rw [res_bind_ok]
    exact hk a hxv
  · simp
  · exact absurd hxv hx

theorem ne_fuel_ite {p : Prop} [Decidable p] {α : Type} {a b : Res α}
    (ha : a ≠ .fuel) (hb : b ≠ .fuel) : (if p then a else b) ≠ .fuel := by
  split_ifs <;> assumption

theorem next_ok (f : Nat) (l : Lexer) (ot : Option Token) (l' : Lexer)
    (h : Lexer.next f l = .ok (ot, l')) :
    l.pos ≤ l'.pos ∧ l'.src = l.src ∧ (Wf l → Wf l') ∧
    (∀ t, ot = some t → l.pos < l'.pos) := by
  unfold Lexer.next at h
  simp only [res_bind_eq, res_pure_eq] at h
  rcases hst : skip_trivia f l false with ⟨l₁, nl⟩ | p
  · obtain ⟨m1, m2, m3, m4, m5⟩ := skip_trivia_ok f l false l₁ nl hst
    simp only [hst, res_bind_ok] at h
    cases nl with
    | true =>
      rw [if_pos rfl] at h
      injection h with h
      injection h with h1 h2
      subst h1
      subst h2
      exact ⟨m1, m2, m3, fun t _ => m5 rfl rfl⟩
    | false =>
      rw [if_neg (by simp)] at h
      rcases hc1 : l₁.current_char with _ | c
      · simp only [hc1] at h
        injection h with h
        injection h with h1 h2
        subst h1
        subst h2
        exact ⟨m1, m2, m3, fun t ht => absurd ht (by simp)⟩
      · simp only [hc1] at h
        rcases htk : scan_token f c l₁ with ⟨t₂, l₂⟩ | p
        · simp only [htk, res_bind_ok] at h
          obtain ⟨s1, s2, s3, _⟩ := scan_token_ok f c l₁ l₂ t₂ hc1 htk
          injection h with h
          injection h with h1 h2
          subst h1
          subst h2
          exact ⟨by omega, by rw [s2, m2], fun _ => s3, fun t _ => by omega⟩
        · simp [htk] at h
        · simp [htk] at h
  · simp [hst] at h
  · simp [hst] at h

/-- End of stream is reported only when the skipped trivia run contained
no line break (the `contains_newline` early return precedes the EOF check). -/
theorem next_none (f : Nat) (l : Lexer) (l' : Lexer)
    (h : Lexer.next f l = .ok (none, l')) :
    skip_trivia f l false = .ok (l', false) ∧ l'.current_char = none := by
  unfold Lexer.next at h
  simp only [res_bind_eq, res_pure_eq] at h
  rcases hst : skip_trivia f l false with ⟨l₁, nl⟩ | p
  · simp only [hst, res_bind_ok] at h
    cases nl with
    | true =>
      rw [if_pos rfl] at h
      injection h with h
      injection h with h1 h2
      cases h1
    | false =>
      rw [if_neg (by simp)] at h
      rcases hc1 : l₁.current_char with _ | c
      · simp only [hc1] at h
        injection h with h
        injection h with h1 h2
        subst h2
        exact ⟨rfl, hc1⟩
      · simp only [hc1] at h
        rcases htk : scan_token f c l₁ with ⟨t₂, l₂⟩ | p
        · simp only [htk, res_bind_ok] at h
          injection h with h
          injection h with h1 h2
          cases h1
        · simp [htk] at h
        · simp [htk] at h
  · simp [hst] at h
  · simp [hst] at h

/-- A `Whitespace` token can only come from the newline-flag early return,
so the state after it is a completed trivia run. -/
theorem next_ws (f : Nat) (l : Lexer) (l' : Lexer)
    (h : Lexer.next f l = .ok (some Token.Whitespace, l')) : PostTrivia l' := by
  unfold Lexer.next at h
  simp only [res_bind_eq, res_pure_eq] at h
  rcases hst : skip_trivia f l false with ⟨l₁, nl⟩ | p
  · obtain ⟨m1, m2, m3, m4, m5⟩ := skip_trivia_ok f l false l₁ nl hst
    simp only [hst, res_bind_ok] at h
    cases nl with
    | true =>
      rw [if_pos rfl] at h
      injection h with h
      injection h with h1 h2
      subst h2
      exact m4
    | false =>
      rw [if_neg (by simp)] at h
      rcases hc1 : l₁.current_char with _ | c
      · simp only [hc1] at h
        injection h with h
        injection h with h1 h2
        cases h1
      · simp only [hc1] at h
        rcases htk : scan_token f c l₁ with ⟨t₂, l₂⟩ | p
        · simp only [htk, res_bind_ok] at h
          obtain ⟨_, _, _, s4⟩ := scan_token_ok f c l₁ l₂ t₂ hc1 htk
          injection h with h
          injection h with h1 h2
          injection h1 with h1
          exact absurd h1 s4
        · simp [htk] at h
        · simp [htk] at h
  · simp [hst] at h
  · simp [hst] at h

/-- From a state already normalised by a trivia run, the very next step
never produces a `Whitespace` token. -/
theorem next_post_not_ws (f : Nat) (l : Lexer) (ot : Option Token) (l' : Lexer)
    (hp : PostTrivia l) (h : Lexer.next f l = .ok (ot, l')) :
    ot ≠ some Token.Whitespace := by
  cases f with
  | zero =>
    unfold Lexer.next at h
    simp [skip_trivia] at h
  | succ g =>
    unfold Lexer.next at h
    simp only [res_bind_eq, res_pure_eq] at h
    rw [skip_trivia_post (g + 1) l false (Nat.succ_pos g) hp, res_bind_ok] at h
    rw [if_neg (by simp)] at h
    rcases hc1 : l.current_char with _ | c
    · simp only [hc1] at h
      injection h with h
      injection h with h1 h2
      subst h1
      simp
    · simp only [hc1] at h
      rcases htk : scan_token (g + 1) c l with ⟨t₂, l₂⟩ | p
      · simp only [htk, res_bind_ok] at h
        obtain ⟨_, _, _, s4⟩ := scan_token_ok (g + 1) c l l₂ t₂ hc1 htk
        injection h with h
        injection h with h1 h2
        subst h1
        intro hx
        injection hx with hx
        exact s4 hx
      · simp [htk] at h
      · simp [htk] at h

/-- No two adjacent `Whitespace` tokens in a token list. -/
def noAdjWS : List Token → Prop
  | [] => True
  | [_] => True
  | a :: b :: rest =>
    ¬(a = Token.Whitespace ∧ b = Token.Whitespace) ∧ noAdjWS (b :: rest)

theorem tokenize_loop_noadj : ∀ (f : Nat) (l : Lexer) (ts : List Token),
    tokenize_loop f l = .ok ts →
    noAdjWS ts ∧
    (PostTrivia l → ∀ t ts', ts = t :: ts' → t ≠ Token.Whitespace) := by
  intro f
  induction f with
  | zero => intro l ts h; simp [tokenize_loop] at h
  | succ g ih =>
    intro l ts h
    unfold tokenize_loop at h
    rcases hnx : Lexer.next g l with ⟨ot, l₂⟩ | p
    · rcases ot with _ | t
      · simp only [hnx] at h
        injection h with h
        subst h
        exact ⟨trivial, fun _ t ts' he => by cases he⟩
      · simp only [hnx] at h
        rcases htl : tokenize_loop g l₂ with ts₂ | p
        · simp only [htl] at h
          injection h with h
          subst h
          obtain ⟨ihA, ihB⟩ := ih l₂ ts₂ htl
          constructor
          · cases ts₂ with
            | nil => exact trivial
            | cons t2 rest =>
              refine ⟨?_, ihA⟩
              rintro ⟨ht, ht2⟩
              subst ht
              have hp2 : PostTrivia l₂ := next_ws g l l₂ hnx
              exact (ihB hp2 t2 rest rfl) ht2
          · intro hpl t' ts' heq
            injection heq with he1 he2
            subst he1
            have hnw := next_post_not_ws g l (some t) l₂ hpl hnx
            intro hx
            subst hx
            exact hnw rfl
        · simp [htl] at h
        · simp [htl] at h
    · simp [hnx] at h
    · simp [hnx] at h

/-- Fuel lemma for the digit loop. -/
theorem scan_number_loop_fuel : ∀ (f : Nat) (l : Lexer), Wf l →
    2 * utf8Len l.src + 1 ≤ f + 2 * l.pos → 0 < f →
    scan_number_loop f l ≠ .fuel := by
  intro f
  induction f with
  | zero => intro l _ _ hf; omega
  | succ g ih =>
    intro l hw hb _
    rcases hcur : l.current_char with _ | c
    · simp [scan_number_loop, hcur]
    · have hlt := hw.1 c hcur
      by_cases hd : rust_is_digit10 c = true
      · rcases bump_cases l with hb1 | ⟨l₂, hb1, hp, hs, hw₂⟩
        · simp [scan_number_loop, hcur, hd, hb1]
        · simp only [scan_number_loop, hcur, hd, if_true, res_bind_eq, hb1,
            res_bind_ok]
          exact ih l₂ hw₂ (by rw [hs, hp]; omega) (by omega)
      · simp [scan_number_loop, hcur, hd]

/-- Fuel lemma for the identifier loop. -/
theorem scan_ident_loop_fuel : ∀ (f : Nat) (l : Lexer), Wf l →
    2 * utf8Len l.src + 1 ≤ f + 2 * l.pos → 0 < f →
    scan_ident_loop f l ≠ .fuel := by
  intro f
  induction f with
  | zero => intro l _ _ hf; omega
  | succ g ih =>
    intro l hw hb _
    rcases hcur : l.current_char with _ | c
    · simp [scan_ident_loop, hcur]
    · have hlt := hw.1 c hcur
      by_cases hd : can_continue_identifier c = true
      · rcases bump_cases l with hb1 | ⟨l₂, hb1, hp, hs, hw₂⟩
        · simp [scan_ident_loop, hcur, hd, hb1]
        · simp only [scan_ident_loop, hcur, hd, if_true, res_bind_eq, hb1,
            res_bind_ok]
          exact ih l₂ hw₂ (by rw [hs, hp]; omega) (by omega)
      · simp [scan_ident_loop, hcur, hd]

/-- Fuel lemma for the string loop. -/
theorem scan_string_loop_fuel : ∀ (f : Nat) (l : Lexer), Wf l →
    2 * utf8Len l.src + 1 ≤ f + 2 * l.pos → 0 < f →
    scan_string_loop f l ≠ .fuel := by
  intro f
  induction f with
  | zero => intro l _ _ hf; omega
  | succ g ih =>
    intro l hw hb _
    rcases hcur : l.current_char with _ | c
    · simp [scan_string_loop, hcur]
    · have hlt := hw.1 c hcur
      by_cases hd : c = '"'
      · simp [scan_string_loop, hcur, hd]
      · rcases bump_cases l with hb1 | ⟨l₂, hb1, hp, hs, hw₂⟩
        · simp [scan_string_loop, hcur, hd, hb1]
        · simp only [scan_string_loop, hcur, hd, ne_eq, not_false_eq_true,
            if_true, res_bind_eq, hb1, res_bind_ok]
          exact ih l₂ hw₂ (by rw [hs, hp]; omega) (by omega)

/-- Fuel lemma for the line-comment loop. -/
theorem skip_line_comment_loop_fuel : ∀ (f : Nat) (l : Lexer), Wf l →
    2 * utf8Len l.src + 1 ≤ f + 2 * l.pos → 0 < f →
    skip_line_comment_loop f l ≠ .fuel := by
  intro f
  induction f with
  | zero => intro l _ _ hf; omega
  | succ g ih =>
    intro l hw hb _
    rcases hcur : l.current_char with _ | c
    · simp [skip_line_comment_loop, hcur]
    · have hlt := hw.1 c hcur
      by_cases hd : c = '\n'
      · simp [skip_line_comment_loop, hcur, hd]
      · rcases bump_cases l with hb1 | ⟨l₂, hb1, hp, hs, hw₂⟩
        · simp [skip_line_comment_loop, hcur, hd, hb1]
        · simp only [skip_line_comment_loop, hcur, hd, if_false, res_bind_eq,
            hb1, res_bind_ok]
          exact ih l₂ hw₂ (by rw [hs, hp]; omega) (by omega)

/-- Fuel lemma for the block-comment loop. -/
theorem skip_block_comment_loop_fuel : ∀ (f : Nat) (l : Lexer), Wf l →
    2 * utf8Len l.src + 1 ≤ f + 2 * l.pos → 0 < f →
    skip_block_comment_loop f l ≠ .fuel := by
  intro f
  induction f with
  | zero => intro l _ _ hf; omega
  | succ g ih =>
    intro l hw hb _
    rcases hcur : l.current_char with _ | c
    · simp [skip_block_comment_loop, hcur]
    · have hlt := hw.1 c hcur
      by_cases hd : c = '*'
      · rcases hnc : l.next_char with nc | p
        · by_cases hnc2 : nc = some '/'
          · simp [skip_block_comment_loop, hcur, hd, hnc, hnc2]
          · rcases bump_cases l with hb1 | ⟨l₂, hb1, hp, hs, hw₂⟩
            · simp [skip_block_comment_loop, hcur, hd, hnc, hnc2, hb1]
            · simp only [skip_block_comment_loop, hcur, hd, if_true,
                res_bind_eq, hnc, res_bind_ok, hnc2, if_false, hb1]
              exact ih l₂ hw₂ (by rw [hs, hp]; omega) (by omega)
        · simp [skip_block_comment_loop, hcur, hd, hnc]
        · exact absurd hnc (next_char_ne_fuel l)
      · rcases bump_cases l with hb1 | ⟨l₂, hb1, hp, hs, hw₂⟩
        · simp [skip_block_comment_loop, hcur, hd, hb1]
        · simp only [skip_block_comment_loop, hcur, hd, if_false, res_bind_eq,
            hb1, res_bind_ok]
          exact ih l₂ hw₂ (by rw [hs, hp]; omega) (by omega)

/-- A line-comment loop entered away from a line break strictly advances. -/
theorem skip_line_comment_loop_lt {f : Nat} {l l' : Lexer} {c : Char}
    (hcur : l.current_char = some c) (hne : c ≠ '\n')
    (h : skip_line_comment_loop f l = .ok l') : l.pos < l'.pos := by
  cases f with
  | zero => simp [skip_line_comment_loop] at h
  | succ g =>
    rcases bump_cases l with hb | ⟨l₂, hb, hp, hs, hw⟩
    · simp [skip_line_comment_loop, hcur, hne, hb] at h
    · simp only [skip_line_comment_loop, hcur, hne, if_false, res_bind_eq,
        hb, res_bind_ok] at h
      obtain ⟨h1, _, _⟩ := skip_line_comment_loop_ok g l₂ l' h
      omega

/-- Fuel lemma for the trivia skipper: fuel linear in the remaining bytes
suffices. -/
theorem skip_trivia_fuel : ∀ (f : Nat) (l : Lexer) (nl : Bool), Wf l →
    2 * utf8Len l.src + 2 ≤ f + 2 * l.pos → 0 < f →
    skip_trivia f l nl ≠ .fuel := by
  intro f
  induction f with
  | zero => intro l nl _ _ hf; omega
  | succ g ih =>
    intro l nl hw hb _
    rcases hcur : l.current_char with _ | c
    · simp [skip_trivia, hcur]
    · have hlt := hw.1 c hcur
      by_cases hsl : c = '/'
      · subst hsl
        rcases hnc : l.next_char with nc | p
        · by_cases hstar : nc = some '*'
          · rcases bump_cases l with hb1 | ⟨l₂, hb1, hp2, hs2, hw2⟩
            · simp [skip_trivia, hcur, hnc, hstar, hb1]
            · rcases bump_cases l₂ with hb2 | ⟨l₃, hb2, hp3, hs3, hw3⟩
              · simp [skip_trivia, hcur, hnc, hstar, hb1, hb2]
              · have hblf : skip_block_comment_loop g l₃ ≠ .fuel := by
                  apply skip_block_comment_loop_fuel g l₃ hw3
                  · rw [hs3, hs2, hp3, hp2]
                    omega
                  · omega
                rcases hbl : skip_block_comment_loop g l₃ with l₄ | p
                · obtain ⟨hm4, hsrc4, hwf4⟩ :=
                    skip_block_comment_loop_ok g l₃ l₄ hbl
                  rcases bump_cases l₄ with hb4 | ⟨l₅, hb4, hp5, hs5, hw5⟩
                  · simp [skip_trivia, hcur, hnc, hstar, hb1, hb2, hbl, hb4]
                  · rcases bump_cases l₅ with hb5 | ⟨l₆, hb5, hp6, hs6, hw6⟩
                    · simp [skip_trivia, hcur, hnc, hstar, hb1, hb2, hbl,
                        hb4, hb5]
                    · simp only [skip_trivia, hcur, hnc, hstar, if_true,
                        res_bind_eq, res_bind_ok, hb1, hb2, hbl, hb4, hb5]
                      apply ih l₆ _ hw6
                      · rw [hs6, hs5, hsrc4, hs3, hs2]
                        rw [hp6, hp5]
                        have : l₃.pos ≤ l₄.pos := hm4
                        rw [hp3, hp2] at this
                        omega
                      · omega
                · simp [skip_trivia, hcur, hnc, hstar, hb1, hb2, hbl]
                · exact absurd hbl hblf
          · by_cases hslash : nc = some '/'
            · have hllf : skip_line_comment_loop g l ≠ .fuel := by
                apply skip_line_comment_loop_fuel g l hw
                · omega
                · omega
              rcases hll : skip_line_comment_loop g l with l₂ | p
              · obtain ⟨hm2, hsrc2, hwf2⟩ :=
                  skip_line_comment_loop_ok g l l₂ hll
                have hstrict : l.pos < l₂.pos :=
                  skip_line_comment_loop_lt hcur (by decide) hll
                simp only [skip_trivia, hcur, hnc, hstar, hslash, if_true,
                  if_false, res_bind_eq, res_bind_ok, hll]
                apply ih l₂ _ (hwf2 hw)
                · rw [hsrc2]
                  omega
                · omega
              · simp [skip_trivia, hcur, hnc, hstar, hslash, hll]
              · exact absurd hll hllf
            · have w1 : rust_is_whitespace '/' = false := by decide
              simp [skip_trivia, hcur, hnc, hstar, hslash, w1]
        · simp [skip_trivia, hcur, hnc]
        · exact absurd hnc (next_char_ne_fuel l)
      · by_cases hws : rust_is_whitespace c = true
        · rcases bump_cases l with hb1 | ⟨l₂, hb1, hp2, hs2, hw2⟩
          · simp [skip_trivia, hcur, hsl, hws, hb1]
          · simp only [skip_trivia, hcur, hsl, hws, if_true, if_false,
              res_bind_eq, res_bind_ok, hb1]
            apply ih l₂ _ hw2
            · rw [hs2, hp2]
              omega
            · omega
        · have hwsf : rust_is_whitespace c = false := by
            cases hq : rust_is_whitespace c
            · rfl
            · exact absurd hq hws
          simp [skip_trivia, hcur, hsl, hwsf]

theorem scan_number_ne_fuel (f : Nat) (l : Lexer) (hw : Wf l)
    (hb : 2 * utf8Len l.src + 1 ≤ f + 2 * l.pos) (hf : 0 < f) :
    scan_number f l ≠ .fuel := by
  unfold scan_number
  simp only [res_bind_eq, res_pure_eq]
  apply ne_fuel_bind (scan_number_loop_fuel f l hw hb hf)
  intro l₂ _
  exact ne_fuel_bind (liftSlice_ne_fuel _) (fun s _ => ne_fuel_ok)

/-- The token dispatcher never exhausts linear fuel. -/
theorem scan_token_fuel (f : Nat) (c : Char) (l : Lexer) (hw : Wf l)
    (hb : 2 * utf8Len l.src + 2 ≤ f + 2 * l.pos) (hf : 0 < f) :
    scan_token f c l ≠ .fuel := by
  unfold scan_token
  by_cases hc1 : c = '('
  case pos =>
    rw [if_pos hc1]
    simp only [res_bind_eq, res_pure_eq]
    exact ne_fuel_bind (bump_ne_fuel l) (fun l₂ _ => ne_fuel_ok)
  rw [if_neg hc1]
  by_cases hc2 : c = ')'
  case pos =>
    rw [if_pos hc2]
    simp only [res_bind_eq, res_pure_eq]
    exact ne_fuel_bind (bump_ne_fuel l) (fun l₂ _ => ne_fuel_ok)
  rw [if_neg hc2]
  by_cases hc3 : c = '\x7b'
  case pos =>
    rw [if_pos hc3]
    simp only [res_bind_eq, res_pure_eq]
    exact ne_fuel_bind (bump_ne_fuel l) (fun l₂ _ => ne_fuel_ok)
  rw [if_neg hc3]
  by_cases hc4 : c = '\x7d'
  case pos =>
    rw [if_pos hc4]
    simp only [res_bind_eq, res_pure_eq]
    exact ne_fuel_bind (bump_ne_fuel l) (fun l₂ _ => ne_fuel_ok)
  rw [if_neg hc4]
  by_cases hc5 : c = '['
  case pos =>
    rw [if_pos hc5]
    simp only [res_bind_eq, res_pure_eq]
    exact ne_fuel_bind (bump_ne_fuel l) (fun l₂ _ => ne_fuel_ok)
  rw [if_neg hc5]
  by_cases hc6 : c = ']'
  case pos =>
    rw [if_pos hc6]
    simp only [res_bind_eq, res_pure_eq]
    exact ne_fuel_bind (bump_ne_fuel l) (fun l₂ _ => ne_fuel_ok)
  rw [if_neg hc6]
  by_cases hc7 : c = ','
  case pos =>
    rw [if_pos hc7]
    simp only [res_bind_eq, res_pure_eq]
    exact ne_fuel_bind (bump_ne_fuel l) (fun l₂ _ => ne_fuel_ok)
  rw [if_neg hc7]
  by_cases hc8 : c = ';'
  case pos =>
    rw [if_pos hc8]
    simp only [res_bind_eq, res_pure_eq]
    exact ne_fuel_bind (bump_ne_fuel l) (fun l₂ _ => ne_fuel_ok)
  rw [if_neg hc8]
  by_cases hc9 : c = '.'
  case pos =>
    rw [if_pos hc9]
    simp only [res_bind_eq, res_pure_eq]
    refine ne_fuel_bind (bump_ne_fuel l) ?_
    intro l₂ _
    refine ne_fuel_ite ?_ ne_fuel_ok
    refine ne_fuel_bind (next_char_ne_fuel l₂) ?_
    intro nc _
    exact ne_fuel_ite (ne_fuel_bind (bump_ne_fuel l₂) (fun l₃ _ =>
      ne_fuel_bind (bump_ne_fuel l₃) (fun _ _ => ne_fuel_ok))) ne_fuel_ok
  rw [if_neg hc9]
  by_cases hc10 : c = ':'
  case pos =>
    rw [if_pos hc10]
    simp only [res_bind_eq, res_pure_eq]
    exact ne_fuel_bind (bump_ne_fuel l) (fun l₂ _ => ne_fuel_ite (ne_fuel_bind (bump_ne_fuel l₂) (fun _ _ => ne_fuel_ok)) (ne_fuel_ok))
  rw [if_neg hc10]
  by_cases hc11 : c = '+'
  case pos =>
    rw [if_pos hc11]
    simp only [res_bind_eq, res_pure_eq]
    exact ne_fuel_bind (bump_ne_fuel l) (fun l₂ _ => ne_fuel_ite (ne_fuel_bind (bump_ne_fuel l₂) (fun _ _ => ne_fuel_ok)) (ne_fuel_ite (ne_fuel_bind (bump_ne_fuel l₂) (fun _ _ => ne_fuel_ok)) (ne_fuel_ok)))
  rw [if_neg hc11]
  by_cases hc12 : c = '-'
  case pos =>
    rw [if_pos hc12]
    simp only [res_bind_eq, res_pure_eq]
    exact ne_fuel_bind (bump_ne_fuel l) (fun l₂ _ => ne_fuel_ite (ne_fuel_bind (bump_ne_fuel l₂) (fun _ _ => ne_fuel_ok)) (ne_fuel_ite (ne_fuel_bind (bump_ne_fuel l₂) (fun _ _ => ne_fuel_ok)) (ne_fuel_ok)))
  rw [if_neg hc12]
  by_cases hc13 : c = '*'
  case pos =>
    rw [if_pos hc13]
    simp only [res_bind_eq, res_pure_eq]
    exact ne_fuel_bind (bump_ne_fuel l) (fun l₂ _ => ne_fuel_ite (ne_fuel_bind (bump_ne_fuel l₂) (fun _ _ => ne_fuel_ok)) (ne_fuel_ok))
  rw [if_neg hc13]
  by_cases hc14 : c = '/'
  case pos =>
    rw [if_pos hc14]
    simp only [res_bind_eq, res_pure_eq]
    exact ne_fuel_bind (bump_ne_fuel l) (fun l₂ _ => ne_fuel_ite (ne_fuel_bind (bump_ne_fuel l₂) (fun _ _ => ne_fuel_ok)) (ne_fuel_ok))
  rw [if_neg hc14]
  by_cases hc15 : c = '<'
  case pos =>
    rw [if_pos hc15]
    simp only [res_bind_eq, res_pure_eq]
    exact ne_fuel_bind (bump_ne_fuel l) (fun l₂ _ => ne_fuel_ite (ne_fuel_bind (bump_ne_fuel l₂) (fun l₃ _ => ne_fuel_ite (ne_fuel_bind (bump_ne_fuel l₃) (fun _ _ => ne_fuel_ok)) ne_fuel_ok)) (ne_fuel_ite (ne_fuel_bind (bump_ne_fuel l₂) (fun _ _ => ne_fuel_ok)) (ne_fuel_ite (ne_fuel_bind (bump_ne_fuel l₂) (fun _ _ => ne_fuel_ok)) (ne_fuel_ok))))
  rw [if_neg hc15]
  by_cases hc16 : c = '>'
  case pos =>
    rw [if_pos hc16]
    simp only [res_bind_eq, res_pure_eq]
    exact ne_fuel_bind (bump_ne_fuel l) (fun l₂ _ => ne_fuel_ite (ne_fuel_bind (bump_ne_fuel l₂) (fun l₃ _ => ne_fuel_ite (ne_fuel_bind (bump_ne_fuel l₃) (fun _ _ => ne_fuel_ok)) ne_fuel_ok)) (ne_fuel_ite (ne_fuel_bind (bump_ne_fuel l₂) (fun _ _ => ne_fuel_ok)) (ne_fuel_ok)))
  rw [if_neg hc16]
  by_cases hc17 : c = '|'
  case pos =>
    rw [if_pos hc17]
    simp only [res_bind_eq, res_pure_eq]
    exact ne_fuel_bind (bump_ne_fuel l) (fun l₂ _ => ne_fuel_ite (ne_fuel_bind (bump_ne_fuel l₂) (fun _ _ => ne_fuel_ok)) (ne_fuel_ite (ne_fuel_bind (bump_ne_fuel l₂) (fun _ _ => ne_fuel_ok)) (ne_fuel_ok)))
  rw [if_neg hc17]
  by_cases hc18 : c = '&'
  case pos =>
    rw [if_pos hc18]
    simp only [res_bind_eq, res_pure_eq]
    exact ne_fuel_bind (bump_ne_fuel l) (fun l₂ _ => ne_fuel_ite (ne_fuel_bind (bump_ne_fuel l₂) (fun _ _ => ne_fuel_ok)) (ne_fuel_ite (ne_fuel_bind (bump_ne_fuel l₂) (fun _ _ => ne_fuel_ok)) (ne_fuel_ite (ne_fuel_bind (bump_ne_fuel l₂) (fun l₃ _ => ne_fuel_ite (ne_fuel_bind (bump_ne_fuel l₃) (fun _ _ => ne_fuel_ok)) ne_fuel_ok)) ne_fuel_ok)))
  rw [if_neg hc18]
  by_cases hc19 : c = '!'
  case pos =>
    rw [if_pos hc19]
    simp only [res_bind_eq, res_pure_eq]
    exact ne_fuel_bind (bump_ne_fuel l) (fun l₂ _ => ne_fuel_ite (ne_fuel_bind (bump_ne_fuel l₂) (fun _ _ => ne_fuel_ok)) (ne_fuel_ok))
  rw [if_neg hc19]
  by_cases hc20 : c = '^'
  case pos =>
    rw [if_pos hc20]
    simp only [res_bind_eq, res_pure_eq]
    exact ne_fuel_bind (bump_ne_fuel l) (fun l₂ _ => ne_fuel_ite (ne_fuel_bind (bump_ne_fuel l₂) (fun _ _ => ne_fuel_ok)) (ne_fuel_ok))
  rw [if_neg hc20]
  by_cases hc21 : c = '%'
  case pos =>
    rw [if_pos hc21]
    simp only [res_bind_eq, res_pure_eq]
    exact ne_fuel_bind (bump_ne_fuel l) (fun l₂ _ => ne_fuel_ite (ne_fuel_bind (bump_ne_fuel l₂) (fun _ _ => ne_fuel_ok)) (ne_fuel_ok))
  rw [if_neg hc21]
  by_cases hc22 : rust_is_digit10 c = true
  case pos =>
    rw [if_pos hc22]
    simp only [res_bind_eq, res_pure_eq]
    exact ne_fuel_bind (scan_number_ne_fuel f l hw (by omega) hf)
      (fun _ _ => ne_fuel_ok)
  rw [if_neg hc22]
  by_cases hc23 : can_start_identifier c = true
  case pos =>
    rw [if_pos hc23]
    simp only [res_bind_eq, res_pure_eq]
    refine ne_fuel_bind (scan_ident_loop_fuel f l hw (by omega) hf) ?_
    intro l₂ _
    exact ne_fuel_bind (liftSlice_ne_fuel _) (fun s _ => ne_fuel_ok)
  rw [if_neg hc23]
  by_cases hc24 : c = '"'
  case pos =>
    rw [if_pos hc24]
    simp only [res_bind_eq, res_pure_eq]
    refine ne_fuel_bind (bump_ne_fuel l) ?_
    intro l₂ hb2
    obtain ⟨hp2, hs2, hw2⟩ := bump_ok_props hb2
    refine ne_fuel_bind (scan_string_loop_fuel f l₂ hw2 ?_ hf) ?_
    · rw [hs2, hp2]
      omega
    · intro l₃ _
      exact ne_fuel_bind (liftSlice_ne_fuel _) (fun s _ =>
        ne_fuel_bind (bump_ne_fuel l₃) (fun _ _ => ne_fuel_ok))
  rw [if_neg hc24]
  simp

/-- A single step never exhausts linear fuel. -/
theorem next_fuel (f : Nat) (l : Lexer) (hw : Wf l)
    (hb : 2 * utf8Len l.src + 2 ≤ f + 2 * l.pos) (hf : 0 < f) :
    Lexer.next f l ≠ .fuel := by
  unfold Lexer.next
  simp only [res_bind_eq, res_pure_eq]
  apply ne_fuel_bind (skip_trivia_fuel f l false hw hb hf)
  rintro ⟨l₁, nl⟩ hst
  obtain ⟨m1, m2, m3, _, _⟩ := skip_trivia_ok f l false l₁ nl hst
  cases nl with
  | true =>
    rw [if_pos rfl]
    exact ne_fuel_ok
  | false =>
    rw [if_neg (by simp)]
    rcases hc1 : l₁.current_char with _ | c
    · exact ne_fuel_ok
    · refine ne_fuel_bind ?_ (fun _ _ => ne_fuel_ok)
      apply scan_token_fuel f c l₁ (m3 hw) _ hf
      rw [m2]
      omega

/-- The collection loop never exhausts its fuel budget of
`2 * utf8Len src + 3` from a fresh lexer. -/
theorem tokenize_loop_fuel : ∀ (f : Nat) (l : Lexer), Wf l →
    2 * utf8Len l.src + 3 ≤ f + 2 * l.pos → (l.current_char = none → 2 ≤ f) →
    tokenize_loop f l ≠ .fuel := by
  intro f
  induction f with
  | zero =>
    intro l hw hb h2
    rcases hcur : l.current_char with _ | c
    · have := h2 hcur
      omega
    · have := hw.1 c hcur
      omega
  | succ g ih =>
    intro l hw hb h2
    rcases hcur : l.current_char with _ | c
    · have hg : 1 ≤ g := by
        have := h2 hcur
        omega
      have hpt : PostTrivia l := by
        intro c hc
        rw [hcur] at hc
        cases hc
      have hst := skip_trivia_post g l false hg hpt
      unfold tokenize_loop
      unfold Lexer.next
      simp only [res_bind_eq, res_pure_eq, hst, res_bind_ok, hcur]
      simp
    · have hlt := hw.1 c hcur
      have hg : 0 < g := by omega
      unfold tokenize_loop
      rcases hnx : Lexer.next g l with ⟨ot, l₂⟩ | p
      · obtain ⟨m1, m2, m3, m4⟩ := next_ok g l ot l₂ hnx
        rcases ot with _ | t
        · simp [hnx]
        · simp only [hnx]
          have hrec : tokenize_loop g l₂ ≠ .fuel := by
            apply ih l₂ (m3 hw)
            · have := m4 t rfl
              rw [m2]
              omega
            · intro _
              omega
          rcases htl : tokenize_loop g l₂ with ts | p
          · simp [htl]
          · simp [htl]
          · exact absurd htl hrec
      · simp [hnx]
      · exact absurd hnx (next_fuel g l hw (by omega) hg)

/-- `tokenize` always reaches a verdict (tokens or a panic): the fueled
embedding is faithful to the Rust loop on every input. -/
theorem tokenize_ne_fuel (s : List Char) : tokenize s ≠ .fuel := by
  unfold tokenize
  apply tokenize_loop_fuel _ _ (wf_new s)
  · simp [Lexer.new]
  · intro _
    omega

/-- If the source contains no line break, the trivia skipper can never set
the newline flag. -/
theorem skip_trivia_flag : ∀ (f : Nat) (l : Lexer) (nl : Bool) (l' : Lexer) (nl' : Bool),
    Wf l → '\n' ∉ l.src → skip_trivia f l nl = .ok (l', nl') → nl' = nl := by
  intro f
  induction f with
  | zero => intro l nl l' nl' _ _ h; simp [skip_trivia] at h
  | succ g ih =>
    intro l nl l' nl' hw hnl h
    rcases hcur : l.current_char with _ | c
    · simp only [skip_trivia, hcur] at h
      injection h with h
      injection h with h1 h2
      subst h2
      rfl
    · have hcm : c ∈ l.src := hw.2 c hcur
      have hcn : c ≠ '\n' := fun he => hnl (he ▸ hcm)
      have hdec : (decide (c = '\n')) = false := decide_eq_false hcn
      by_cases hsl : c = '/'
      · subst hsl
        rcases hnc : l.next_char with nc | p
        · by_cases hstar : nc = some '*'
          · rcases bump_cases l with hb1 | ⟨l₂, hb1, hp2, hs2, hw2⟩
            · simp [skip_trivia, hcur, hnc, hstar, hb1] at h
            · rcases bump_cases l₂ with hb2 | ⟨l₃, hb2, hp3, hs3, hw3⟩
              · simp [skip_trivia, hcur, hnc, hstar, hb1, hb2] at h
              · rcases hbl : skip_block_comment_loop g l₃ with l₄ | p
                · obtain ⟨hm4, hsrc4, hwf4⟩ :=
                    skip_block_comment_loop_ok g l₃ l₄ hbl
                  rcases bump_cases l₄ with hb4 | ⟨l₅, hb4, hp5, hs5, hw5⟩
                  · simp [skip_trivia, hcur, hnc, hstar, hb1, hb2, hbl,
                      hb4] at h
                  · rcases bump_cases l₅ with hb5 | ⟨l₆, hb5, hp6, hs6, hw6⟩
                    · simp [skip_trivia, hcur, hnc, hstar, hb1, hb2, hbl,
                        hb4, hb5] at h
                    · simp only [skip_trivia, hcur, hnc, hstar, if_true,
                        res_bind_eq, res_bind_ok, hb1, hb2, hbl, hb4, hb5,
                        hdec, Bool.or_false] at h
                      refine ih l₆ nl l' nl' hw6 ?_ h
                      rw [hs6, hs5, hsrc4, hs3, hs2]
                      exact hnl
                · simp [skip_trivia, hcur, hnc, hstar, hb1, hb2, hbl] at h
                · simp [skip_trivia, hcur, hnc, hstar, hb1, hb2, hbl] at h
          · by_cases hslash : nc = some '/'
            · rcases hll : skip_line_comment_loop g l with l₂ | p
              · obtain ⟨hm2, hsrc2, hwf2⟩ :=
                  skip_line_comment_loop_ok g l l₂ hll
                simp only [skip_trivia, hcur, hnc, hstar, hslash, if_true,
                  if_false, res_bind_eq, res_bind_ok, hll, hdec,
                  Bool.or_false] at h
                refine ih l₂ nl l' nl' (hwf2 hw) ?_ h
                rw [hsrc2]
                exact hnl
              · simp [skip_trivia, hcur, hnc, hstar, hslash, hll] at h
              · simp [skip_trivia, hcur, hnc, hstar, hslash, hll] at h
            · have w1 : rust_is_whitespace '/' = false := by decide
              simp only [skip_trivia, hcur, hnc, hstar, hslash, if_true,
                if_false, res_bind_eq, res_bind_ok, w1, hdec,
                Bool.or_false] at h
              injection h with h
              injection h with h1 h2
              subst h2
              rfl
        · simp [skip_trivia, hcur, hnc] at h
        · simp [skip_trivia, hcur, hnc] at h
      · by_cases hws : rust_is_whitespace c = true
        · rcases bump_cases l with hb1 | ⟨l₂, hb1, hp2, hs2, hw2⟩
          · simp [skip_trivia, hcur, hsl, hws, hb1] at h
          · simp only [skip_trivia, hcur, hsl, hws, if_true, if_false,
              res_bind_eq, res_bind_ok, hb1, hdec, Bool.or_false] at h
            refine ih l₂ nl l' nl' hw2 ?_ h
            rw [hs2]
            exact hnl
        · have hwsf : rust_is_whitespace c = false := by
            cases hq : rust_is_whitespace c
            · rfl
            · exact absurd hq hws
          simp only [skip_trivia, hcur, hsl, hwsf, if_false, hdec,
            Bool.or_false] at h
          injection h with h
          injection h with h1 h2
          subst h2
          rfl

/-- Without a line break in the source, a step never produces `Whitespace`. -/
theorem next_no_ws (f : Nat) (l : Lexer) (ot : Option Token) (l' : Lexer)
    (hw : Wf l) (hnl : '\n' ∉ l.src)
    (h : Lexer.next f l = .ok (ot, l')) : ot ≠ some Token.Whitespace := by
  unfold Lexer.next at h
  simp only [res_bind_eq, res_pure_eq] at h
  rcases hst : skip_trivia f l false with ⟨l₁, nl⟩ | p
  · have hfl : nl = false := skip_trivia_flag f l false l₁ nl hw hnl hst
    subst hfl
    simp only [hst, res_bind_ok] at h
    rw [if_neg (by simp)] at h
    rcases hc1 : l₁.current_char with _ | c
    · simp only [hc1] at h
      injection h with h
      injection h with h1 h2
      subst h1
      simp
    · simp only [hc1] at h
      rcases htk : scan_token f c l₁ with ⟨t₂, l₂⟩ | p
      · simp only [htk, res_bind_ok] at h
        obtain ⟨_, _, _, s4⟩ := scan_token_ok f c l₁ l₂ t₂ hc1 htk
        injection h with h
        injection h with h1 h2
        subst h1
        intro hx
        injection hx with hx
        exact s4 hx
      · simp [htk] at h
      · simp [htk] at h
  · simp [hst] at h
  · simp [hst] at h

/-- Collection loop version: without a line break in the source, no
`Whitespace` token is ever produced. -/
theorem tokenize_loop_no_ws : ∀ (f : Nat) (l : Lexer) (ts : List Token),
    Wf l → '\n' ∉ l.src → tokenize_loop f l = .ok ts →
    Token.Whitespace ∉ ts := by
  intro f
  induction f with
  | zero => intro l ts _ _ h; simp [tokenize_loop] at h
  | succ g ih =>
    intro l ts hw hnl h
    unfold tokenize_loop at h
    rcases hnx : Lexer.next g l with ⟨ot, l₂⟩ | p
    · rcases ot with _ | t
      · simp only [hnx] at h
        injection h with h
        subst h
        simp
      · simp only [hnx] at h
        rcases htl : tokenize_loop g l₂ with ts₂ | p
        · simp only [htl] at h
          injection h with h
          subst h
          obtain ⟨m1, m2, m3, m4⟩ := next_ok g l (some t) l₂ hnx
          have ht : t ≠ Token.Whitespace := by
            intro he
            exact next_no_ws g l (some t) l₂ hw hnl hnx (by rw [he])
          have hrest : Token.Whitespace ∉ ts₂ :=
            ih l₂ ts₂ (m3 hw) (by rw [m2]; exact hnl) htl
          intro hmem
          rcases List.mem_cons.mp hmem with he | he
          · exact ht he.symm
          · exact hrest he
        · simp [htl] at h
        · simp [htl] at h
    · simp [hnx] at h
    · simp [hnx] at h

theorem tokenize_no_ws (s : List Char) (ts : List Token)
    (hnl : '\n' ∉ s) (h : tokenize s = .ok ts) : Token.Whitespace ∉ ts := by
  unfold tokenize at h
  exact tokenize_loop_no_ws _ _ ts (wf_new s) hnl h

/-- Canonical cursor state: positioned between `pre` and `post`. -/
def stateAt (pre post : List Char) : Lexer :=
  { pos := utf8Len pre, src := pre ++ post, current_char := post.head? }

theorem new_stateAt (s : List Char) : Lexer.new s = stateAt [] s := rfl

theorem utf8Len_append (a b : List Char) :
    utf8Len (a ++ b) = utf8Len a + utf8Len b := by
  induction a with
  | nil => simp [utf8Len]
  | cons c rest ih =>
    show c.utf8Size + utf8Len (rest ++ b) = c.utf8Size + utf8Len rest + utf8Len b
    rw [ih]
    omega

theorem length_le_utf8Len (s : List Char) : s.length ≤ utf8Len s := by
  induction s with
  | nil => simp [utf8Len]
  | cons c rest ih =>
    have := Char.utf8Size_pos c
    simp only [List.length_cons, utf8Len]
    omega

theorem char_at_append (pre post : List Char) :
    char_at (pre ++ post) (utf8Len pre) = post.head? := by
  induction pre with
  | nil =>
    cases post with
    | nil => rfl
    | cons c rest => simp [char_at, utf8Len]
  | cons c rest ih =>
    have hpos := Char.utf8Size_pos c
    simp only [List.cons_append, char_at, utf8Len]
    rw [if_neg (by omega), if_neg (by omega)]
    have he : c.utf8Size + utf8Len rest - c.utf8Size = utf8Len rest := by omega
    rw [he]
    exact ih

theorem utf8Len_eq_zero {s : List Char} (h : utf8Len s = 0) : s = [] := by
  cases s with
  | nil => rfl
  | cons c rest =>
    have := Char.utf8Size_pos c
    simp [utf8Len] at h
    omega

/-- Advancing over a one-byte char relocates the canonical state. -/
theorem bump_stateAt (pre : List Char) (c : Char) (post : List Char)
    (h1 : c.utf8Size = 1) :
    (stateAt pre (c :: post)).bump = .ok (stateAt (pre ++ [c]) post) := by
  have hlen : utf8Len (pre ++ c :: post) = utf8Len pre + 1 + utf8Len post := by
    rw [utf8Len_append]
    simp [utf8Len, h1]
    omega
  have e2 : utf8Len (pre ++ [c]) = utf8Len pre + 1 := by
    rw [utf8Len_append]
    simp [utf8Len, h1]
  have e1 : pre ++ c :: post = (pre ++ [c]) ++ post := by simp
  unfold Lexer.bump stateAt
  simp only
  by_cases hp : utf8Len pre + 1 < utf8Len (pre ++ c :: post)
  · rw [if_pos hp]
    have e3 : char_at (pre ++ c :: post) (utf8Len pre + 1) = post.head? := by
      rw [e1, ← e2, char_at_append]
    rw [e3]
    cases post with
    | nil =>
      rw [hlen] at hp
      simp [utf8Len] at hp
    | cons d rest =>
      simp only [List.head?]
      rw [Res.ok.injEq]
      refine Lexer.mk.injEq .. ▸ ?_
      exact ⟨e2.symm, e1, rfl⟩
  · rw [if_neg hp]
    rw [hlen] at hp
    have hz : utf8Len post = 0 := by omega
    have hpe : post = [] := utf8Len_eq_zero hz
    subst hpe
    simp only [List.head?]
    rw [Res.ok.injEq]
    refine Lexer.mk.injEq .. ▸ ?_
    exact ⟨e2.symm, e1, rfl⟩

/-- The string-body loop walks over exactly the quote-free body. -/
theorem scan_string_loop_run : ∀ (body pre post : List Char) (f : Nat),
    (∀ c ∈ body, c ≠ '"' ∧ c.utf8Size = 1) →
    (∀ c, post.head? = some c → c = '"') →
    body.length < f →
    scan_string_loop f (stateAt pre (body ++ post)) =
      .ok (stateAt (pre ++ body) post) := by
  intro body
  induction body with
  | nil =>
    intro pre post f _ hpost hf
    cases f with
    | zero => omega
    | succ g =>
      rcases hcur : post.head? with _ | c
      · have : (stateAt pre ([] ++ post)).current_char = none := by
          simp [stateAt, hcur]
        simp only [scan_string_loop, this]
        simp [stateAt]
      · have hc : c = '"' := hpost c hcur
        subst hc
        have : (stateAt pre ([] ++ post)).current_char = some '"' := by
          simp [stateAt, hcur]
        simp only [scan_string_loop, this]
        rw [if_neg (by simp)]
        simp [stateAt]
  | cons b bs ih =>
    intro pre post f hbody hpost hf
    obtain ⟨hbq, hb1⟩ := hbody b (List.mem_cons_self b bs)
    cases f with
    | zero => exact absurd hf (Nat.not_lt_zero _)
    | succ g =>
      have hcur : (stateAt pre ((b :: bs) ++ post)).current_char = some b := by
        simp [stateAt]
      have hbump : (stateAt pre ((b :: bs) ++ post)).bump =
          .ok (stateAt (pre ++ [b]) (bs ++ post)) := by
        have := bump_stateAt pre b (bs ++ post) hb1
        simpa using this
      simp only [scan_string_loop, hcur]
      rw [if_pos (by simpa using hbq)]
      simp only [res_bind_eq, hbump, res_bind_ok]
      have := ih (pre ++ [b]) post g
        (fun c hc => hbody c (List.mem_cons_of_mem b hc)) hpost (by
          simp only [List.length_cons] at hf
          omega)
      rw [this]
      rw [List.append_assoc, List.singleton_append]

theorem drop_bytes_append : ∀ (pre rest : List Char),
    drop_bytes (pre ++ rest) (utf8Len pre) = some rest := by
  intro pre
  induction pre with
  | nil =>
    intro rest
    unfold drop_bytes
    rw [if_pos (show utf8Len [] = 0 from rfl)]
    rfl
  | cons c pre ih =>
    intro rest
    have hpos := Char.utf8Size_pos c
    unfold drop_bytes
    rw [if_neg (by show ¬(utf8Len (c :: pre) = 0); simp [utf8Len]; omega)]
    show (if c.utf8Size ≤ utf8Len (c :: pre) then
      drop_bytes (pre ++ rest) (utf8Len (c :: pre) - c.utf8Size) else none) = some rest
    rw [if_pos (by show c.utf8Size ≤ c.utf8Size + utf8Len pre; omega)]
    have he : utf8Len (c :: pre) - c.utf8Size = utf8Len pre := by
      show c.utf8Size + utf8Len pre - c.utf8Size = utf8Len pre
      omega
    rw [he]
    exact ih rest

theorem take_bytes_prefix : ∀ (mid post : List Char),
    take_bytes (mid ++ post) (utf8Len mid) = some mid := by
  intro mid
  induction mid with
  | nil =>
    intro post
    unfold take_bytes
    rw [if_pos (show utf8Len [] = 0 from rfl)]
  | cons c mid ih =>
    intro post
    have hpos := Char.utf8Size_pos c
    unfold take_bytes
    rw [if_neg (by show ¬(utf8Len (c :: mid) = 0); simp [utf8Len]; omega)]
    show (if c.utf8Size ≤ utf8Len (c :: mid) then
      (match take_bytes (mid ++ post) (utf8Len (c :: mid) - c.utf8Size) with
       | some l => some (c :: l)
       | none => none) else none) = some (c :: mid)
    rw [if_pos (by show c.utf8Size ≤ c.utf8Size + utf8Len mid; omega)]
    have he : utf8Len (c :: mid) - c.utf8Size = utf8Len mid := by
      show c.utf8Size + utf8Len mid - c.utf8Size = utf8Len mid
      omega
    rw [he, ih post]

theorem str_slice_run (pre mid post : List Char) :
    str_slice (pre ++ (mid ++ post)) (utf8Len pre) (utf8Len pre + utf8Len mid) =
      some mid := by
  unfold str_slice
  rw [if_pos (by omega)]
  rw [drop_bytes_append]
  show take_bytes (mid ++ post) (utf8Len pre + utf8Len mid - utf8Len pre) = some mid
  have he : utf8Len pre + utf8Len mid - utf8Len pre = utf8Len mid := by omega
  rw [he, take_bytes_prefix]

/-- Specialisation of the dispatcher to an opening double quote. -/
theorem scan_token_quote (f : Nat) (l : Lexer) :
    scan_token f '"' l = (do
      let l₂ ← l.bump
      let l₃ ← scan_string_loop f l₂
      let s ← liftSlice (str_slice l₃.src l₂.pos l₃.pos)
      let l₄ ← l₃.bump
      pure (Token.Literal (Literal.Str s), l₄)) := by
  unfold scan_token
  rw [if_neg (by decide), if_neg (by decide), if_neg (by decide),
    if_neg (by decide), if_neg (by decide), if_neg (by decide),
    if_neg (by decide), if_neg (by decide), if_neg (by decide),
    if_neg (by decide), if_neg (by decide), if_neg (by decide),
    if_neg (by decide), if_neg (by decide), if_neg (by decide),
    if_neg (by decide), if_neg (by decide), if_neg (by decide),
    if_neg (by decide), if_neg (by decide), if_neg (by decide),
    if_neg (by decide), if_neg (by decide), if_pos rfl]

/-- Scanning a closed string literal: the body between the quotes is
returned verbatim (line breaks included), and the cursor ends just past
the closing quote. -/
theorem scan_token_quote_closed (f : Nat) (pre body post : List Char)
    (hbody : ∀ c ∈ body, c ≠ '"' ∧ c.utf8Size = 1)
    (hf : body.length + 1 ≤ f) :
    scan_token f '"' (stateAt pre ('"' :: (body ++ '"' :: post))) =
      .ok (Token.Literal (Literal.Str body),
           stateAt (pre ++ '"' :: (body ++ ['"'])) post) := by
  rw [scan_token_quote]
  simp only [res_bind_eq, res_pure_eq]
  rw [bump_stateAt pre '"' (body ++ '"' :: post) (by decide), res_bind_ok]
  rw [scan_string_loop_run body (pre ++ ['"']) ('"' :: post) f hbody
    (fun c hc => by injection hc with hc; exact hc.symm) (by omega),
    res_bind_ok]
  have hsrc : (stateAt ((pre ++ ['"']) ++ body) ('"' :: post)).src =
      (pre ++ ['"']) ++ (body ++ '"' :: post) := by
    simp [stateAt]
  have hslice : str_slice ((pre ++ ['"']) ++ (body ++ '"' :: post))
      (utf8Len (pre ++ ['"'])) (utf8Len ((pre ++ ['"']) ++ body)) = some body := by
    rw [utf8Len_append (pre ++ ['"']) body]
    exact str_slice_run (pre ++ ['"']) body ('"' :: post)
  show Res.bind (liftSlice (str_slice ((pre ++ ['"']) ++ body ++ '"' :: post)
      (utf8Len (pre ++ ['"'])) (utf8Len ((pre ++ ['"']) ++ body)))) _ = _
  rw [List.append_assoc (pre ++ ['"']) body ('"' :: post), hslice]
  show Res.bind (liftSlice (some body)) _ = _
  simp only [liftSlice, res_bind_ok]
  rw [bump_stateAt ((pre ++ ['"']) ++ body) '"' post (by decide), res_bind_ok]
  rw [Res.ok.injEq, Prod.mk.injEq]
  refine ⟨rfl, ?_⟩
  have he : ((pre ++ ['"']) ++ body) ++ ['"'] = pre ++ '"' :: (body ++ ['"']) := by
    simp
  rw [he]

/-- `bump` at or past the end of input just advances the offset. -/
theorem bump_at_end (l : Lexer) (h : utf8Len l.src ≤ l.pos) :
    l.bump = .ok { pos := l.pos + 1, src := l.src, current_char := none } := by
  unfold Lexer.bump
  rw [if_neg (by omega)]

/-- Scanning an unterminated string literal: no error is produced — the
scan succeeds, returning everything after the opening quote as the body,
and the cursor ends one byte past the end of input. -/
theorem scan_token_quote_eof (f : Nat) (pre body : List Char)
    (hbody : ∀ c ∈ body, c ≠ '"' ∧ c.utf8Size = 1)
    (hf : body.length + 1 ≤ f) :
    scan_token f '"' (stateAt pre ('"' :: body)) =
      .ok (Token.Literal (Literal.Str body),
           { pos := utf8Len (pre ++ '"' :: body) + 1,
             src := pre ++ '"' :: body,
             current_char := none }) := by
  have hq1 : ('"' : Char).utf8Size = 1 := by decide
  have hA : (pre ++ ['"']) ++ body = pre ++ '"' :: body := by simp
  have eLen : utf8Len (pre ++ ['"']) + utf8Len body = utf8Len (pre ++ '"' :: body) := by
    rw [utf8Len_append, utf8Len_append]
    simp only [utf8Len, hq1]
    omega
  rw [scan_token_quote]
  simp only [res_bind_eq, res_pure_eq]
  rw [bump_stateAt pre '"' body (by decide), res_bind_ok]
  have hloop : scan_string_loop f (stateAt (pre ++ ['"']) body) =
      .ok (stateAt ((pre ++ ['"']) ++ body) []) := by
    have h := scan_string_loop_run body (pre ++ ['"']) [] f hbody
      (fun c hc => by cases hc) (by omega)
    rwa [List.append_nil] at h
  rw [hloop, res_bind_ok]
  have hslice : str_slice (pre ++ '"' :: body) (utf8Len (pre ++ ['"']))
      (utf8Len (pre ++ '"' :: body)) = some body := by
    have h := str_slice_run (pre ++ ['"']) body []
    rw [List.append_nil, eLen, hA] at h
    exact h
  have hst : stateAt ((pre ++ ['"']) ++ body) [] =
      { pos := utf8Len (pre ++ '"' :: body), src := pre ++ '"' :: body,
        current_char := none } := by
    unfold stateAt
    rw [Lexer.mk.injEq]
    refine ⟨by rw [hA], by rw [List.append_nil, hA], rfl⟩
  rw [hst]
  show Res.bind (liftSlice (str_slice (pre ++ '"' :: body)
      (utf8Len (pre ++ ['"'])) (utf8Len (pre ++ '"' :: body)))) _ = _
  rw [hslice]
  simp only [liftSlice, res_bind_ok]
  rw [bump_at_end _ (by simp)]
  rfl

/-- At end of input (with no pending newline flag) a step reports end of
stream and leaves the state unchanged. -/
theorem next_at_eof (f : Nat) (l : Lexer) (hf : 0 < f)
    (hcur : l.current_char = none) : Lexer.next f l = .ok (none, l) := by
  unfold Lexer.next
  simp only [res_bind_eq, res_pure_eq]
  rw [skip_trivia_post f l false hf (fun c hc => by rw [hcur] at hc; cases hc),
    res_bind_ok]
  rw [if_neg (by simp)]
  simp only [hcur]

/-- A quote-opened, quote-closed literal is scanned by one step into a
`Str` token holding the body verbatim — line breaks included — with the
cursor just past the closing quote. -/
theorem next_closed_string (f : Nat) (body rest : List Char)
    (hq : '"' ∉ body) (h1 : ∀ c ∈ body, c.utf8Size = 1)
    (hf : body.length + 2 ≤ f) :
    Lexer.next f (Lexer.new ('"' :: (body ++ '"' :: rest))) =
      .ok (some (Token.Literal (Literal.Str body)),
           stateAt ('"' :: (body ++ ['"'])) rest) := by
  have hbody : ∀ c ∈ body, c ≠ '"' ∧ c.utf8Size = 1 :=
    fun c hc => ⟨fun he => hq (he ▸ hc), h1 c hc⟩
  have hcur : (Lexer.new ('"' :: (body ++ '"' :: rest))).current_char =
      some '"' := rfl
  have hpt : PostTrivia (Lexer.new ('"' :: (body ++ '"' :: rest))) := by
    intro c hc
    rw [hcur] at hc
    injection hc with hc
    subst hc
    exact ⟨by decide, fun hcc => absurd hcc (by decide)⟩
  unfold Lexer.next
  simp only [res_bind_eq, res_pure_eq]
  rw [skip_trivia_post f _ false (by omega) hpt, res_bind_ok]
  rw [if_neg (by simp)]
  simp only [hcur]
  rw [new_stateAt]
  rw [scan_token_quote_closed f [] body rest hbody (by omega), res_bind_ok]
  rw [List.nil_append]

/-- One step on an input whose string literal is never closed: the scan
still succeeds, producing a `Str` token with all remaining text. -/
theorem next_unterminated_string (f : Nat) (body : List Char)
    (hq : '"' ∉ body) (h1 : ∀ c ∈ body, c.utf8Size = 1)
    (hf : body.length + 2 ≤ f) :
    Lexer.next f (Lexer.new ('"' :: body)) =
      .ok (some (Token.Literal (Literal.Str body)),
           { pos := utf8Len ('"' :: body) + 1, src := '"' :: body,
             current_char := none }) := by
  have hbody : ∀ c ∈ body, c ≠ '"' ∧ c.utf8Size = 1 :=
    fun c hc => ⟨fun he => hq (he ▸ hc), h1 c hc⟩
  have hcur : (Lexer.new ('"' :: body)).current_char = some '"' := rfl
  have hpt : PostTrivia (Lexer.new ('"' :: body)) := by
    intro c hc
    rw [hcur] at hc
    injection hc with hc
    subst hc
    exact ⟨by decide, fun hcc => absurd hcc (by decide)⟩
  unfold Lexer.next
  simp only [res_bind_eq, res_pure_eq]
  rw [skip_trivia_post f _ false (by omega) hpt, res_bind_ok]
  rw [if_neg (by simp)]
  simp only [hcur]
  rw [new_stateAt]
  rw [scan_token_quote_eof f [] body hbody (by omega), res_bind_ok]
  rw [List.nil_append]

/-- Unfolding helpers for the collection loop. -/
theorem tokenize_loop_step_ok (f : Nat) (l : Lexer) (t : Token) (l₂ : Lexer)
    (ts : List Token) (h : Lexer.next f l = .ok (some t, l₂))
    (h2 : tokenize_loop f l₂ = .ok ts) :
    tokenize_loop (f + 1) l = .ok (t :: ts) := by
  show (match Lexer.next f l with
    | Res.ok (none, _) => Res.ok []
    | Res.ok (some t, l) =>
      match tokenize_loop f l with
      | Res.ok ts => Res.ok (t :: ts)
      | Res.panic p => Res.panic p
      | Res.fuel => Res.fuel
    | Res.panic p => Res.panic p
    | Res.fuel => Res.fuel) = Res.ok (t :: ts)
  rw [h]
  show (match tokenize_loop f l₂ with
    | Res.ok ts => Res.ok (t :: ts)
    | Res.panic p => Res.panic p
    | Res.fuel => Res.fuel) = Res.ok (t :: ts)
  rw [h2]

theorem tokenize_loop_done (f : Nat) (l : Lexer) (l₂ : Lexer)
    (h : Lexer.next f l = .ok (none, l₂)) :
    tokenize_loop (f + 1) l = .ok [] := by
  show (match Lexer.next f l with
    | Res.ok (none, _) => Res.ok []
    | Res.ok (some t, l) =>
      match tokenize_loop f l with
      | Res.ok ts => Res.ok (t :: ts)
      | Res.panic p => Res.panic p
      | Res.fuel => Res.fuel
    | Res.panic p => Res.panic p
    | Res.fuel => Res.fuel) = Res.ok []
  rw [h]

/-- Tokenizing an unterminated string: the whole input after the quote is
returned as a single `Str` token and scanning terminates normally, with no
error of any kind. -/
theorem tokenize_unterminated_string (body : List Char)
    (hq : '"' ∉ body) (h1 : ∀ c ∈ body, c.utf8Size = 1) :
    tokenize ('"' :: body) = .ok [Token.Literal (Literal.Str body)] := by
  have hlb := length_le_utf8Len body
  have hq1 : ('"' : Char).utf8Size = 1 := by decide
  have hfuel : body.length + 2 ≤ 2 * utf8Len ('"' :: body) + 2 := by
    show body.length + 2 ≤ 2 * ('"'.utf8Size + utf8Len body) + 2
    omega
  unfold tokenize
  rw [show 2 * utf8Len ('"' :: body) + 3 = (2 * utf8Len ('"' :: body) + 2) + 1
    from rfl]
  apply tokenize_loop_step_ok _ _ _ _ _
    (next_unterminated_string (2 * utf8Len ('"' :: body) + 2) body hq h1 hfuel)
  rw [show 2 * utf8Len ('"' :: body) + 2 = (2 * utf8Len ('"' :: body) + 1) + 1
    from rfl]
  exact tokenize_loop_done _ _ _ (next_at_eof _ _ (by omega) rfl)

/-! ### Claim theorems -/

/-- C1: dispatch on a character with no defined token does not return an
`UnexpectedChar` error value — the Rust code panics (`panic!` at line 478),
aborting the process; the embedding records this as the `unexpectedChar`
panic outcome, and no offset is reported. -/
theorem c1_unexpected_char_panics :
    tokenize ("$".toList) = .panic (.unexpectedChar '$') := rfl

/-- C2: the cursor's `bump` advances the byte offset by exactly one byte,
not by the consumed character's UTF-8 width: on the two-byte character é
the very first advance puts the offset mid-character and `char_at`
panics, so position tracking is not byte-accurate on multi-byte input. -/
theorem c2_bump_advances_one_byte :
    Char.utf8Size 'é' = 2 ∧
    Lexer.bump (Lexer.new ("é".toList)) = .panic .charBoundary ∧
    tokenize ("é".toList) = .panic .charBoundary :=
  ⟨by decide, rfl, rfl⟩

/-- C3 counterexample: an unterminated string does not fail with
`UnterminatedString` — scanning succeeds with a `Str` token holding the
rest of the input; an unterminated block comment does not fail with
`UnterminatedComment` — it is skipped silently and scanning ends. -/
theorem c3_unterminated_counterexample :
    tokenize ("\"abc".toList) = .ok [Token.Literal (Literal.Str ("abc".toList))] ∧
    tokenize ("/*".toList) = .ok ([] : List Token) :=
  ⟨rfl, rfl⟩

/-- C3 (amended): on a string literal opened but never closed, scanning
succeeds and returns a `Str` literal owning all remaining text; an
unterminated block comment is skipped silently and scanning ends at end of
input; in both cases the lexer neither hangs (the fueled embedding always
reaches a verdict) nor reports any error. -/
theorem c3_unterminated_no_error :
    (∀ body : List Char, '"' ∉ body → (∀ c ∈ body, c.utf8Size = 1) →
      tokenize ('"' :: body) = .ok [Token.Literal (Literal.Str body)]) ∧
    tokenize ("/*".toList) = .ok ([] : List Token) ∧
    tokenize ("/* \n x".toList) = .ok ([] : List Token) ∧
    (∀ s : List Char, tokenize s ≠ .fuel) :=
  ⟨fun body hq h1 => tokenize_unterminated_string body hq h1, rfl, rfl,
   tokenize_ne_fuel⟩

theorem c3_unterminated_no_error_witness :
    tokenize ('"' :: ("abc".toList)) =
      .ok [Token.Literal (Literal.Str ("abc".toList))] :=
  c3_unterminated_no_error.1 ("abc".toList) (by decide) (by decide)

/-- C4 counterexample: a line break inside a block comment body does not
set the line-break flag — a block comment containing a newline between two
identifiers yields no `Whitespace` token between them. -/
theorem c4_newline_flag_counterexample :
    tokenize ("a/*\n*/b".toList) =
      .ok [Token.Ident ("a".toList), Token.Ident ("b".toList)] ∧
    Token.Whitespace ∉ [Token.Ident ("a".toList), Token.Ident ("b".toList)] :=
  ⟨rfl, by decide⟩

/-- C4 (amended): the reported line-break flag is set only by line breaks
that the outer trivia loop itself lands on — a source with no line break
at all never yields a `Whitespace` token; a line break inside a block
comment body is not counted, while one terminating a line comment or
following a block comment is. -/
theorem c4_newline_flag :
    (∀ (s : List Char) (ts : List Token), '\n' ∉ s → tokenize s = .ok ts →
      Token.Whitespace ∉ ts) ∧
    tokenize ("a/*\n*/b".toList) =
      .ok [Token.Ident ("a".toList), Token.Ident ("b".toList)] ∧
    tokenize ("a// c\nb".toList) =
      .ok [Token.Ident ("a".toList), Token.Whitespace, Token.Ident ("b".toList)] ∧
    tokenize ("a/* */\nb".toList) =
      .ok [Token.Ident ("a".toList), Token.Whitespace, Token.Ident ("b".toList)] :=
  ⟨fun s ts hnl h => tokenize_no_ws s ts hnl h, rfl, rfl, rfl⟩

theorem c4_newline_flag_witness :
    Token.Whitespace ∉ [Token.Ident ("ab".toList)] :=
  c4_newline_flag.1 ("ab".toList) [Token.Ident ("ab".toList)] (by decide) rfl

/-- C5: longest-match holds on the operator decision trees for the `<`
and `&` chains exactly as claimed. -/
theorem c5_operator_longest_match :
    tokenize ("<<=".toList) = .ok [Token.LshiftAssign] ∧
    tokenize ("<<".toList) = .ok [Token.Lshift] ∧
    tokenize ("<".toList) = .ok [Token.LessThan] ∧
    tokenize ("&".toList) = .ok [Token.And] ∧
    tokenize ("&=".toList) = .ok [Token.AndAssign] ∧
    tokenize ("&&".toList) = .ok [Token.AndAnd] ∧
    tokenize ("&^".toList) = .ok [Token.BitClear] ∧
    tokenize ("&^=".toList) = .ok [Token.BitClearAssign] :=
  ⟨rfl, rfl, rfl, rfl, rfl, rfl, rfl, rfl⟩

/-- C6 counterexample: a multi-byte Unicode alphabetic character starts an
identifier per the dispatcher, but scanning it panics on a mid-character
byte offset instead of producing an `Ident` token (the byte-width slip of
C2), so identifier scanning is not correct for arbitrary alphabetic
characters. -/
theorem c6_ident_keyword_counterexample :
    can_start_identifier 'é' = true ∧
    tokenize ("é".toList) = .panic .charBoundary :=
  ⟨by decide, rfl⟩

/-- C6 (amended): on runs of single-byte characters the identifier scanner
is as claimed: it stops only at a character that cannot continue an
identifier (maximal munch), classifies a spelling as a keyword exactly
when it is one of the 25 fixed keywords, case-sensitively, returns an
`Ident` owning the text otherwise, and scans func1 as one identifier. -/
theorem c6_ident_keyword_scan :
    (∀ (f : Nat) (l l' : Lexer), scan_ident_loop f l = .ok l' →
      l'.current_char = none ∨
      ∃ c, l'.current_char = some c ∧ can_continue_identifier c = false) ∧
    (∀ s : List Char,
      (∃ k, keyword_lookup s = Token.Keyword k) ↔ s ∈ keywords_list) ∧
    (∀ s : List Char, s ∉ keywords_list → keyword_lookup s = Token.Ident s) ∧
    tokenize ("func1".toList) = .ok [Token.Ident ("func1".toList)] ∧
    keywords_list.length = 25 := by
  refine ⟨?_, ?_, ?_, rfl, by decide⟩
  · intro f l l' h
    obtain ⟨_, _, _, h4⟩ := scan_ident_loop_ok f l l' h
    rcases hc : l'.current_char with _ | c
    · exact .inl rfl
    · exact .inr ⟨c, rfl, h4 c hc⟩
  · intro s
    constructor
    · rintro ⟨k, hk⟩
      rcases keyword_lookup_spec s with ⟨hm, _⟩ | ⟨hm, he⟩
      · exact hm
      · rw [he] at hk
        exact absurd hk (by simp)
    · intro hm
      rcases keyword_lookup_spec s with ⟨_, hk⟩ | ⟨hnm, _⟩
      · exact hk
      · exact absurd hm hnm
  · intro s hnm
    rcases keyword_lookup_spec s with ⟨hm, _⟩ | ⟨_, he⟩
    · exact absurd hm hnm
    · exact he

theorem c6_ident_keyword_witness :
    (({ pos := 1, src := "x".toList, current_char := none } : Lexer).current_char = none ∨
      ∃ c, ({ pos := 1, src := "x".toList, current_char := none } : Lexer).current_char = some c ∧
        can_continue_identifier c = false) ∧
    keyword_lookup ("xyz".toList) = Token.Ident ("xyz".toList) :=
  ⟨c6_ident_keyword_scan.1 2 (Lexer.new ("x".toList))
      { pos := 1, src := "x".toList, current_char := none } rfl,
   c6_ident_keyword_scan.2.2.1 ("xyz".toList) (by decide)⟩

/-- C7: at most one `Whitespace` token per maximal trivia run — the token
stream never contains two adjacent `Whitespace` tokens — and one appears
only when the run contained a line break (a source without line breaks
yields none); several consecutive blank lines collapse into exactly one
`Whitespace`. -/
theorem c7_whitespace_once_per_run :
    (∀ (s : List Char) (ts : List Token), tokenize s = .ok ts → noAdjWS ts) ∧
    (∀ (s : List Char) (ts : List Token), '\n' ∉ s → tokenize s = .ok ts →
      Token.Whitespace ∉ ts) ∧
    tokenize ("a\n\n\n\nb".toList) =
      .ok [Token.Ident ("a".toList), Token.Whitespace, Token.Ident ("b".toList)] := by
  refine ⟨?_, ?_, rfl⟩
  · intro s ts h
    unfold tokenize at h
    exact (tokenize_loop_noadj _ _ ts h).1
  · exact fun s ts hnl h => tokenize_no_ws s ts hnl h

theorem c7_whitespace_once_per_run_witness :
    noAdjWS [Token.Ident ("a".toList), Token.Whitespace, Token.Ident ("b".toList)] ∧
    Token.Whitespace ∉ [Token.Ident ("ab".toList)] :=
  ⟨c7_whitespace_once_per_run.1 ("a\n\n\n\nb".toList)
      [Token.Ident ("a".toList), Token.Whitespace, Token.Ident ("b".toList)] rfl,
   c7_whitespace_once_per_run.2.1 ("ab".toList) [Token.Ident ("ab".toList)]
      (by decide) rfl⟩

/-- C8: every single-step scan that returns a token strictly advances the
cursor's byte offset, and tokenizing any finite input terminates — the
fueled embedding of the collection loop never runs out of its linear fuel
budget. -/
theorem c8_progress_and_termination :
    (∀ (f : Nat) (l : Lexer) (t : Token) (l' : Lexer),
      Lexer.next f l = .ok (some t, l') → l.pos < l'.pos) ∧
    (∀ s : List Char, tokenize s ≠ .fuel) := by
  refine ⟨?_, tokenize_ne_fuel⟩
  intro f l t l' h
  exact (next_ok f l (some t) l' h).2.2.2 t rfl

theorem c8_progress_and_termination_witness :
    (Lexer.new ("a".toList)).pos <
      ({ pos := 1, src := "a".toList, current_char := none } : Lexer).pos ∧
    tokenize ("a".toList) ≠ .fuel :=
  ⟨c8_progress_and_termination.1 5 (Lexer.new ("a".toList))
      (Token.Ident ("a".toList))
      { pos := 1, src := "a".toList, current_char := none } rfl,
   c8_progress_and_termination.2 ("a".toList)⟩

/-- C9 counterexample: the trivia run at the very end of the input
`/*\n` contains a line break (the newline sits inside the unterminated
block-comment body), yet the token sequence is empty — it does not end
with a `Whitespace` token, and end of stream is reported from that very
step. -/
theorem c9_counterexample :
    '\n' ∈ ("/*\n".toList) ∧ tokenize ("/*\n".toList) = .ok ([] : List Token) :=
  ⟨by decide, rfl⟩

/-- C9 (amended): end of stream is reported only from a step whose
newline flag stayed false, i.e. whose skipped trivia contained no line
break that the outer trivia loop itself landed on; a trailing newline
after the last real token therefore yields a final `Whitespace` token,
but a line break inside an unterminated block-comment body at end of
input does not. -/
theorem c9_eof_only_without_newline :
    (∀ (f : Nat) (l l' : Lexer), Lexer.next f l = .ok (none, l') →
      skip_trivia f l false = .ok (l', false)) ∧
    tokenize ("a\n".toList) = .ok [Token.Ident ("a".toList), Token.Whitespace] ∧
    tokenize ("/*\n".toList) = .ok ([] : List Token) ∧
    tokenize ("a/*\n".toList) = .ok [Token.Ident ("a".toList)] :=
  ⟨fun f l l' h => (next_none f l l' h).1, rfl, rfl, rfl⟩

theorem c9_eof_only_without_newline_witness :
    skip_trivia 1 (Lexer.new ([] : List Char)) false =
      .ok (Lexer.new ([] : List Char), false) :=
  c9_eof_only_without_newline.1 1 (Lexer.new []) (Lexer.new []) rfl

/-- C10 counterexample: a closed string literal containing a multi-byte
character makes the scan panic on a mid-character byte offset (the
byte-width slip of C2) instead of yielding its body verbatim. -/
theorem c10_closed_string_counterexample :
    tokenize ("\"é\"".toList) = .panic .charBoundary := rfl

/-- C10 (amended): a closed string literal whose body consists of
single-byte characters may span line breaks — one scan step returns a
`Str` token carrying exactly the body between the quotes, line break
characters included, and no `Whitespace` token arises from line breaks
inside the literal. -/
theorem c10_closed_string_verbatim :
    (∀ (f : Nat) (body rest : List Char), '"' ∉ body →
      (∀ c ∈ body, c.utf8Size = 1) → body.length + 2 ≤ f →
      Lexer.next f (Lexer.new ('"' :: (body ++ '"' :: rest))) =
        .ok (some (Token.Literal (Literal.Str body)),
             stateAt ('"' :: (body ++ ['"'])) rest)) ∧
    tokenize ("\"a\nb\"c".toList) =
      .ok [Token.Literal (Literal.Str ("a\nb".toList)), Token.Ident ("c".toList)] :=
  ⟨fun f body rest hq h1 hf => next_closed_string f body rest hq h1 hf, rfl⟩

theorem c10_closed_string_verbatim_witness :
    Lexer.next 7 (Lexer.new ('"' :: (("a\nb".toList) ++ '"' :: ("c".toList)))) =
      .ok (some (Token.Literal (Literal.Str ("a\nb".toList))),
           stateAt ('"' :: (("a\nb".toList) ++ ['"'])) ("c".toList)) :=
  c10_closed_string_verbatim.1 7 ("a\nb".toList) ("c".toList)
    (by decide) (by decide) (by decide)
